import Mathlib

/-!
Verification of the docx-parser extraction pipeline.

This file gives a shallow embedding of the repository's extraction pipeline
(`DocxRepository.parse` in `src/infrastructure/repositories/docx-repository.ts`
together with the `XmlAdapter` and `ZipAdapter`) and proves properties of the
emitted element sequence.

Modelling conventions:
- a ZIP container is a list of named entries plus a `corrupt` flag (the only
  way `JSZip.loadAsync` fails is an unreadable container, which the adapter
  converts into a thrown `DocxParseError`);
- buffers are byte lists (`List Nat`); XML parts are decoded to `String` by
  mapping each byte to the character with that code point (faithful to
  `buffer.toString` for ASCII content, which is all the proofs use);
- the JavaScript regular expressions of `XmlAdapter` are implemented as
  deterministic scanners over `List Char` that reproduce the leftmost-match
  and backtracking behaviour of the source patterns;
- the async generator `parse` is modelled as a function returning the list of
  elements yielded before termination together with an optional fatal error
  (a thrown `DocxParseError` is modelled as `some message`).
-/

namespace Docx

/-! ### Character and whitespace utilities (JS `\s`, `trim`, `toLowerCase`) -/

/-- JS `\s` for the ASCII range: space, tab, newline, vertical tab, form feed,
carriage return. -/
def isJsWs (c : Char) : Bool :=
  c = ' ' || c = '\t' || c = '\n' || c = '\x0b' || c = '\x0c' || c = '\r'

/-- ASCII lower-casing, as `String.prototype.toLowerCase` acts on ASCII. -/
def toLowerL (l : List Char) : List Char := l.map Char.toLower

/-- Case-insensitive character equality (ASCII). -/
def lowerEq (a b : Char) : Bool := a.toLower = b.toLower

/-- Case-insensitive "starts with" over char lists. -/
def ciStarts : List Char → List Char → Bool
  | [], _ => true
  | _ :: _, [] => false
  | p :: ps, c :: cs => lowerEq p c && ciStarts ps cs

/-- Case-insensitive infix test: the `/i` flag on a literal needle. -/
def ciContains (hay needle : List Char) : Bool :=
  decide (toLowerL needle <:+: toLowerL hay)

/-- Fuel-driven worker for `collapseWs`; the fuel only bounds the recursion
depth (each step consumes at least one character), so any fuel of at least
the list length computes the function. -/
def collapseGo : Nat → List Char → List Char
  | _, [] => []
  | 0, l => l
  | fuel + 1, c :: rest =>
    if isJsWs c then ' ' :: collapseGo fuel (rest.dropWhile isJsWs)
    else c :: collapseGo fuel rest

/-- `str.replace(/\s+/g, ' ')`: every maximal whitespace run becomes a
single space. -/
def collapseWs (l : List Char) : List Char := collapseGo l.length l

theorem collapseGo_fuel :
    ∀ (f1 : Nat) (l : List Char), l.length ≤ f1 → ∀ (f2 : Nat), l.length ≤ f2 →
      collapseGo f1 l = collapseGo f2 l := by
  intro f1
  induction f1 with
  | zero =>
    intro l hl f2 _
    have : l = [] := List.length_eq_zero.mp (by omega)
    subst this
    cases f2 <;> rfl
  | succ f ih =>
    intro l hl f2 h2
    cases l with
    | nil => cases f2 <;> rfl
    | cons c rest =>
      cases f2 with
      | zero => simp at h2
      | succ f2 =>
        simp only [collapseGo]
        have hdw : (rest.dropWhile isJsWs).length ≤ rest.length :=
          (List.dropWhile_sublist (p := isJsWs) (l := rest)).length_le
        simp only [List.length_cons] at hl h2
        split
        · rw [ih (rest.dropWhile isJsWs) (by omega) f2 (by omega)]
        · rw [ih rest (by omega) f2 (by omega)]

theorem collapseWs_nil : collapseWs [] = [] := rfl

theorem collapseWs_cons (c : Char) (rest : List Char) :
    collapseWs (c :: rest) =
      if isJsWs c then ' ' :: collapseWs (rest.dropWhile isJsWs)
      else c :: collapseWs rest := by
  unfold collapseWs
  simp only [List.length_cons, collapseGo]
  have hdw : (rest.dropWhile isJsWs).length ≤ rest.length :=
    (List.dropWhile_sublist (p := isJsWs) (l := rest)).length_le
  split
  · rw [collapseGo_fuel rest.length (rest.dropWhile isJsWs) (by omega)
      (rest.dropWhile isJsWs).length (by omega)]
  · rfl

/-- JS `String.prototype.trim` (on the modelled whitespace set). -/
def trimWs (l : List Char) : List Char :=
  ((l.dropWhile isJsWs).reverse.dropWhile isJsWs).reverse

/-- `s.replace(/\s+/g, ' ').trim()`. -/
def normalizeTextL (l : List Char) : List Char := trimWs (collapseWs l)

/-- String-level whitespace normalization. -/
def normalizeText (s : String) : String := (normalizeTextL s.data).asString

/-- String-level `trim`. -/
def trimS (s : String) : String := (trimWs s.data).asString

/-! ### Generic pattern-scanning primitives -/

/-- Split a list at the first occurrence of a pattern: `splitFirst pat s = some
(before, after)` means `s = before ++ pat ++ after` with the occurrence
leftmost.  Mirrors the deterministic part of a regex search for a literal. -/
def splitFirst (pat : List Char) : List Char → Option (List Char × List Char)
  | [] => if pat.isPrefixOf ([] : List Char) then some ([], []) else none
  | c :: rest =>
    if pat.isPrefixOf (c :: rest) then some ([], (c :: rest).drop pat.length)
    else
      match splitFirst pat rest with
      | some (a, b) => some (c :: a, b)
      | none => none

theorem splitFirst_eq_append {pat : List Char} :
    ∀ {s a b : List Char}, splitFirst pat s = some (a, b) → s = a ++ pat ++ b := by
  intro s
  induction s with
  | nil =>
    intro a b h
    simp only [splitFirst] at h
    split at h
    · rename_i hp
      cases h
      simp_all [List.isPrefixOf_iff_prefix, List.prefix_nil]
    · cases h
  | cons c rest ih =>
    intro a b h
    simp only [splitFirst] at h
    split at h
    · rename_i hp
      cases h
      rw [List.isPrefixOf_iff_prefix] at hp
      obtain ⟨t, ht⟩ := hp
      simp only [List.nil_append]
      conv_lhs => rw [← ht]
      rw [← ht]
      simp
    · revert h
      match hrec : splitFirst pat rest with
      | some (a0, b0) =>
        intro h
        cases h
        have := ih hrec
        simp [this]
      | none => intro h; cases h

theorem splitFirst_length {pat : List Char} {s a b : List Char}
    (h : splitFirst pat s = some (a, b)) :
    b.length + pat.length + a.length = s.length := by
  have := splitFirst_eq_append h
  subst this
  simp
  omega

/-- After a successful `splitFirst` on a nonempty pattern the remainder is
strictly shorter. -/
theorem splitFirst_lt {pat : List Char} {s a b : List Char}
    (h : splitFirst pat s = some (a, b)) (hp : pat ≠ []) : b.length < s.length := by
  have := splitFirst_length h
  have : pat.length > 0 := List.length_pos.mpr hp
  omega

/-- Fuel-driven worker for `scanBlocks`: each step (consumed match or
one-character advance) shortens the input by at least one character, so fuel
equal to the input length computes the scan. -/
def scanBlocksGo (openT closeT : List Char) : Nat → List Char → List (List Char)
  | _, [] => []
  | 0, _ => []
  | fuel + 1, c :: rest =>
    if openT.isPrefixOf (c :: rest) then
      match splitFirst ['>'] ((c :: rest).drop openT.length) with
      | some (_, body) =>
        match splitFirst closeT body with
        | some (cap, rest2) => cap :: scanBlocksGo openT closeT fuel rest2
        | none => scanBlocksGo openT closeT fuel rest
      | none => scanBlocksGo openT closeT fuel rest
    else scanBlocksGo openT closeT fuel rest

/-- Scanner for a global regex of shape `OPEN[^>]*>(.*?)CLOSE` (the paragraph,
table, row and cell patterns of `XmlAdapter`): at each position, if the open
literal matches, consume to the first `>` (greedy `[^>]*` bounded by the next
`>`), then capture lazily up to the first occurrence of the close literal;
successful matches are consumed (regex `lastIndex`), failures advance one
character. -/
def scanBlocks (openT closeT : List Char) (s : List Char) : List (List Char) :=
  scanBlocksGo openT closeT s.length s

/-! ### Tag stripping (`xmlContent.replace(/<[^>]*>/g, ' ')`) -/

/-- Fuel-driven worker for `stripTags`. -/
def stripTagsGo : Nat → List Char → List Char
  | _, [] => []
  | 0, l => l
  | fuel + 1, c :: rest =>
    if c = '<' then
      if rest.contains '>' then
        ' ' :: stripTagsGo fuel ((rest.dropWhile (fun d => decide (d ≠ '>'))).drop 1)
      else c :: rest
    else c :: stripTagsGo fuel rest

/-- Replace every `<[^>]*>` match by a single space.  A `<` with no later `>`
starts no match, and then nothing after it can match either. -/
def stripTags (l : List Char) : List Char := stripTagsGo l.length l

/-- `XmlAdapter.extractTextFromXml`: strip tags, collapse whitespace, trim. -/
def extractTextFromXmlL (l : List Char) : List Char := trimWs (collapseWs (stripTags l))

/-- String-level `extractTextFromXml`. -/
def extractTextFromXml (s : String) : String := (extractTextFromXmlL s.data).asString

/-! ### Formatting-flag tests (`XmlAdapter.extractFormattingInfo`) -/

/-- The single-quote character (written by code point to keep sources plain). -/
def sq : Char := Char.ofNat 39

/-- JS regex word character (`\w`): ASCII alphanumeric or underscore. -/
def isWordChar (c : Char) : Bool := c.isAlphanum || c = '_'

/-- Test for `/<w:X\b[^>]*\/?>/`: the literal `tag` (e.g. `<w:b`), a word
boundary, then any non-`>` run closed by `>`. -/
def testFlagTag (tag : List Char) : List Char → Bool
  | [] => false
  | c :: rest =>
    (tag.isPrefixOf (c :: rest) &&
      (match (c :: rest).drop tag.length with
       | [] => false
       | d :: tail => !isWordChar d && (d :: tail).contains '>'))
    || testFlagTag tag rest

/-- Test for `/<w:strike\s+w:val=["']1["'][^>]*\/?>/`. -/
def testStrike : List Char → Bool
  | [] => false
  | c :: rest =>
    ("<w:strike".data.isPrefixOf (c :: rest) &&
      (let t := (c :: rest).drop 9
       match t with
       | [] => false
       | d :: _ =>
         isJsWs d &&
         (let u := t.dropWhile isJsWs
          "w:val=".data.isPrefixOf u &&
          (match u.drop 6 with
           | q :: v =>
             (q = '"' || q = sq) &&
             (match v with
              | e :: w =>
                e = '1' &&
                (match w with
                 | q2 :: x => (q2 = '"' || q2 = sq) && x.contains '>'
                 | [] => false)
              | [] => false)
           | [] => false))))
    || testStrike rest

structure FormatFlags where
  bold : Bool := false
  italic : Bool := false
  underline : Bool := false
  strike : Bool := false
  deriving DecidableEq, Repr

/-- `XmlAdapter.extractFormattingInfo`: independent boolean pattern tests on
one paragraph block; a flag is present exactly when its pattern occurs. -/
def extractFormattingInfo (xml : String) : FormatFlags :=
  { bold := testFlagTag "<w:b".data xml.data
    italic := testFlagTag "<w:i".data xml.data
    underline := testFlagTag "<w:u".data xml.data
    strike := testStrike xml.data }

/-! ### Style analysis (`XmlAdapter.analyzeStyleForHeader`) -/

/-- All capture candidates of `<w:pStyle[^>]*w:val=["']([^"']*)["'][^>]*>/i`
at one start position, in backtracking order (`[^>]*` greedy: longest star
first).  A candidate is structurally complete; the needle-containment test of
the source patterns is applied by the caller, reproducing the engine's
backtracking over needle failures. -/
def styleCandidatesAt (s : List Char) : List (List Char) :=
  if ciStarts "<w:pstyle".data s then
    let after := s.drop 9
    let m := after.takeWhile (fun d => decide (d ≠ '>'))
    ((List.range (m.length + 1)).reverse).filterMap (fun k =>
      let p := after.drop k
      if ciStarts "w:val=".data p then
        match p.drop 6 with
        | q :: qrest =>
          if q = '"' || q = sq then
            let cap := qrest.takeWhile (fun d => decide (d ≠ '"') && decide (d ≠ sq))
            match qrest.drop cap.length with
            | _ :: tail2 => if tail2.contains '>' then some cap else none
            | [] => none
          else none
        | [] => none
      else none)
  else []

/-- All capture candidates over the whole string, leftmost start first. -/
def styleCandidates : List Char → List (List Char)
  | [] => []
  | c :: rest => styleCandidatesAt (c :: rest) ++ styleCandidates rest

/-- First capture of `<w:pStyle[^>]*w:val=["']([^"']*NEEDLE[^"']*)["'][^>]*>/i`:
the first structural candidate containing the needle case-insensitively. -/
def findStyleVal (xml : String) (needle : String) : Option String :=
  ((styleCandidates xml.data).find? (fun q => ciContains q needle.data)).map List.asString

/-- `parseInt` on a digit run. -/
def digitsToNat (ds : List Char) : Nat := ds.foldl (fun a c => 10 * a + (c.toNat - 48)) 0

/-- First match of `/heading(\d+)|h(\d+)/` on a (lowercased) style value:
at each position try `heading` followed by digits, then `h` followed by
digits; the digit group is maximal. -/
def findHeadingDigits : List Char → Option (List Char)
  | [] => none
  | c :: rest =>
    if "heading".data.isPrefixOf (c :: rest) && (((c :: rest).drop 7).headD ' ').isDigit then
      some (((c :: rest).drop 7).takeWhile Char.isDigit)
    else if c = 'h' && (rest.headD ' ').isDigit then
      some (rest.takeWhile Char.isDigit)
    else findHeadingDigits rest

/-- Level computed from a heading style value (source: `parseInt(levelMatch[1]
|| levelMatch[2] || '1')`, default 1 when the digit pattern is absent). -/
def headingLevelOf (v : String) : Nat :=
  match findHeadingDigits (toLowerL v.data) with
  | some ds => digitsToNat ds
  | none => 1

structure StyleInfo where
  isHeader : Bool
  level : Option Nat
  deriving DecidableEq, Repr

/-- `XmlAdapter.analyzeStyleForHeader`: heading style first, then Title,
then subtitle, else paragraph. -/
def analyzeStyleForHeader (xml : String) : StyleInfo :=
  match findStyleVal xml "heading" with
  | some v => ⟨true, some (headingLevelOf v)⟩
  | none =>
    if (findStyleVal xml "title").isSome then ⟨true, some 1⟩
    else if (findStyleVal xml "subtitle").isSome then ⟨true, some 2⟩
    else ⟨false, none⟩

/-! ### Paragraph and table extraction -/

structure AnalyzedPara where
  text : String
  isHeader : Bool
  level : Option Nat
  formatting : Option FormatFlags
  deriving DecidableEq, Repr

/-- `XmlAdapter.extractParagraphsWithFormattingFromXml`: scan `<w:p[^>]*>
(.*?)</w:p>` blocks, keep those with nonempty captured XML and nonempty
trimmed text, and record style classification and formatting flags (the
`formatting` field is set only when at least one flag is present). -/
def extractParagraphsWithFormattingFromXml (xml : String) : List AnalyzedPara :=
  (scanBlocks "<w:p".data "</w:p>".data xml.data).filterMap (fun p =>
    if p = [] then none
    else
      let text := extractTextFromXmlL p
      if trimWs text = [] then none
      else
        let style := analyzeStyleForHeader p.asString
        let fmt := extractFormattingInfo p.asString
        some { text := (trimWs text).asString
               isHeader := style.isHeader
               level := style.level
               formatting := if fmt ≠ {} then some fmt else none })

/-- `XmlAdapter.extractTablesFromXml`: nested block scans; a cell is pushed
(with possibly empty text) whenever its captured XML is nonempty; rows need
at least one cell and tables at least one row. -/
def extractTablesFromXml (xml : String) : List (List (List String)) :=
  (scanBlocks "<w:tbl".data "</w:tbl>".data xml.data).filterMap (fun tbl =>
    if tbl = [] then none
    else
      let rows := (scanBlocks "<w:tr".data "</w:tr>".data tbl).filterMap (fun row =>
        if row = [] then none
        else
          let cells := (scanBlocks "<w:tc".data "</w:tc>".data row).filterMap (fun cell =>
            if cell = [] then none else some (extractTextFromXml cell.asString))
          if cells = [] then none else some cells)
      if rows = [] then none else some rows)

/-! ### Header, footer and footnote part analysis -/

/-- Test for `/<w:instrText[^>]*>PAGE<\/w:instrText>/`. -/
def testInstrPage : List Char → Bool
  | [] => false
  | c :: rest =>
    ("<w:instrText".data.isPrefixOf (c :: rest) &&
      (match splitFirst ['>'] ((c :: rest).drop 12) with
       | some (_, body) => "PAGE</w:instrText>".data.isPrefixOf body
       | none => false))
    || testInstrPage rest

/-- One attempt of `/string="([^"]*)"[^>]*>.*?<v:textpath/` at a position;
without the `s` flag the lazy gap may not cross a line break. -/
def watermarkAAt (s : List Char) : Option (List Char) :=
  if "string=\"".data.isPrefixOf s then
    let t := s.drop 8
    let cap := t.takeWhile (fun d => decide (d ≠ '"'))
    match t.drop cap.length with
    | _ :: after =>
      match splitFirst ['>'] after with
      | some (_, seg) =>
        match splitFirst "<v:textpath".data seg with
        | some (gap, _) =>
          if gap.any (fun d => d = '\n' || d = '\r') then none else some cap
        | none => none
      | none => none
    | [] => none
  else none

def scanWatermarkA : List Char → Option (List Char)
  | [] => none
  | c :: rest => (watermarkAAt (c :: rest)).orElse (fun _ => scanWatermarkA rest)

/-- One attempt of `/string="([^"]*)".*?fitshape="t"/` at a position. -/
def watermarkBAt (s : List Char) : Option (List Char) :=
  if "string=\"".data.isPrefixOf s then
    let t := s.drop 8
    let cap := t.takeWhile (fun d => decide (d ≠ '"'))
    match t.drop cap.length with
    | _ :: after =>
      match splitFirst "fitshape=\"t\"".data after with
      | some (gap, _) =>
        if gap.any (fun d => d = '\n' || d = '\r') then none else some cap
      | none => none
    | [] => none
  else none

def scanWatermarkB : List Char → Option (List Char)
  | [] => none
  | c :: rest => (watermarkBAt (c :: rest)).orElse (fun _ => scanWatermarkB rest)

structure HeaderInfo where
  text : String
  hasPageNumber : Bool
  watermark : Option String
  deriving DecidableEq, Repr

/-- `XmlAdapter.extractHeaderFromXml`: concatenated text, `PAGE` field test,
best-effort watermark via two shape patterns (an empty capture is falsy in
the source and therefore behaves as no watermark). -/
def extractHeaderFromXml (xml : String) : Option HeaderInfo :=
  let textContent := extractTextFromXml xml
  let hasPage := testInstrPage xml.data
  let wm :=
    match (scanWatermarkA xml.data).orElse (fun _ => scanWatermarkB xml.data) with
    | some l => if l = [] then none else some l.asString
    | none => none
  if trimS textContent ≠ "" ∨ hasPage ∨ wm.isSome then
    some { text := trimS textContent, hasPageNumber := hasPage, watermark := wm }
  else none

structure FooterInfo where
  text : String
  hasPageNumber : Bool
  deriving DecidableEq, Repr

/-- `XmlAdapter.extractFooterFromXml`. -/
def extractFooterFromXml (xml : String) : Option FooterInfo :=
  let textContent := extractTextFromXml xml
  let hasPage := testInstrPage xml.data
  if trimS textContent ≠ "" ∨ hasPage then
    some { text := trimS textContent, hasPageNumber := hasPage }
  else none

/-- One attempt of `/<w:footnote[^>]*w:id="([^"]*)"[^>]*>(.*?)<\/w:footnote>/`
at a position, with the greedy `[^>]*` backtracking from the longest star;
returns the id capture, the body capture and the remainder after the match. -/
def footnoteMatchAt (s : List Char) : Option ((List Char × List Char) × List Char) :=
  if "<w:footnote".data.isPrefixOf s then
    let after := s.drop 11
    let m := after.takeWhile (fun d => decide (d ≠ '>'))
    ((List.range (m.length + 1)).reverse).findSome? (fun k =>
      let p := after.drop k
      if "w:id=\"".data.isPrefixOf p then
        let q := p.drop 6
        let fid := q.takeWhile (fun d => decide (d ≠ '"'))
        match q.drop fid.length with
        | _ :: tail2 =>
          match splitFirst ['>'] tail2 with
          | some (_, body) =>
            match splitFirst "</w:footnote>".data body with
            | some (cap, rest2) => some ((fid, cap), rest2)
            | none => none
          | none => none
        | [] => none
      else none)
  else none

theorem footnoteMatchAt_length {s : List Char} {x : List Char × List Char}
    {rest2 : List Char} (h : footnoteMatchAt s = some (x, rest2)) :
    rest2.length < s.length := by
  unfold footnoteMatchAt at h
  split at h
  case isFalse => cases h
  case isTrue hpre =>
    obtain ⟨k, hk, hf⟩ := List.exists_of_findSome?_eq_some h
    dsimp only at hf
    split at hf
    case isFalse => cases hf
    case isTrue hid =>
      cases hdrop : (((s.drop 11).drop k).drop 6).drop
          ((((s.drop 11).drop k).drop 6).takeWhile (fun d => decide (d ≠ '"'))).length with
      | nil => rw [hdrop] at hf; simp at hf
      | cons d tail2 =>
        rw [hdrop] at hf
        dsimp only at hf
        cases h1 : splitFirst ['>'] tail2 with
        | none => rw [h1] at hf; simp at hf
        | some pb =>
          obtain ⟨pre1, body⟩ := pb
          rw [h1] at hf
          dsimp only at hf
          cases h2 : splitFirst "</w:footnote>".data body with
          | none => rw [h2] at hf; simp at hf
          | some cr =>
            obtain ⟨cap, r2⟩ := cr
            rw [h2] at hf
            dsimp only at hf
            cases hf
            have hb : body.length < tail2.length := splitFirst_lt h1 (by simp)
            have hr : rest2.length < body.length := splitFirst_lt h2 (by simp)
            have h11 : 11 ≤ s.length := by
              rw [List.isPrefixOf_iff_prefix] at hpre
              simpa using hpre.length_le
            have h4 := congrArg List.length hdrop
            simp only [List.length_drop, List.length_cons] at h4
            omega

/-- Fuel-driven worker for `scanFootnotesL` (a successful match consumes at
least one character, see `footnoteMatchAt_length`). -/
def scanFootnotesGo : Nat → List Char → List (List Char × List Char)
  | _, [] => []
  | 0, _ => []
  | fuel + 1, c :: rest =>
    match footnoteMatchAt (c :: rest) with
    | some (fn, rest2) => fn :: scanFootnotesGo fuel rest2
    | none => scanFootnotesGo fuel rest

/-- Global scan of the footnote pattern: successful matches are consumed,
failures advance one character. -/
def scanFootnotesL (s : List Char) : List (List Char × List Char) :=
  scanFootnotesGo s.length s

/-- `XmlAdapter.extractFootnotesFromXml`: keep entries with truthy id and
body; the reserved id `"0"` entry is kept under the same nonempty-text rule
(the two source branches have identical bodies). -/
def extractFootnotesFromXml (xml : String) : List (String × String) :=
  (scanFootnotesL xml.data).filterMap (fun fn =>
    let fid := fn.1.asString
    let bodyXml := fn.2
    if fid ≠ "" ∧ bodyXml ≠ [] ∧ fid ≠ "0" then
      let text := trimS (extractTextFromXml bodyXml.asString)
      if text ≠ "" then some (fid, text) else none
    else if fid = "0" ∧ bodyXml ≠ [] then
      let text := trimS (extractTextFromXml bodyXml.asString)
      if text ≠ "" then some (fid, text) else none
    else none)

/-! ### Metadata field extraction (`DocxRepository.extractMetadataValue`) -/

/-- Scanner for `<TAG[^>]*>([^<]*)</TAG>/i`. -/
def scanTagValue (tagOpen tagClose : List Char) : List Char → Option (List Char)
  | [] => none
  | c :: rest =>
    if ciStarts tagOpen (c :: rest) then
      match splitFirst ['>'] ((c :: rest).drop tagOpen.length) with
      | some (_, body) =>
        let cap := body.takeWhile (fun d => decide (d ≠ '<'))
        if ciStarts tagClose (body.drop cap.length) then some cap
        else scanTagValue tagOpen tagClose rest
      | none => scanTagValue tagOpen tagClose rest
    else scanTagValue tagOpen tagClose rest

/-- `extractMetadataValue`: first match's capture, trimmed; an empty trimmed
value is falsy and becomes absent. -/
def extractMetadataValue (xml tag : String) : Option String :=
  match scanTagValue ('<' :: tag.data) ('<' :: '/' :: tag.data ++ ['>']) xml.data with
  | some cap =>
    let v := trimWs cap
    if v = [] then none else some v.asString
  | none => none

/-- `extractMetadataDate`: the date is modelled by its raw trimmed source
string (`new Date(dateStr)` keeps no more information the claims need). -/
def extractMetadataDate (xml tag : String) : Option String :=
  extractMetadataValue xml tag

/-! ### Image format and filename helpers (`DocxRepository`) -/

/-- `str.split(sep).pop()`: the (possibly empty) last separator-free
component. -/
def lastComponent (sep : Char) (l : List Char) : List Char :=
  (l.reverse.takeWhile (fun d => decide (d ≠ sep))).reverse

/-- `DocxRepository.getImageFormat`: lowercase extension table. -/
def getImageFormat (filename : String) : Option String :=
  let ext := lastComponent '.' (toLowerL filename.data)
  if ext = "png".data then some "png"
  else if ext = "jpg".data then some "jpg"
  else if ext = "jpeg".data then some "jpg"
  else if ext = "gif".data then some "gif"
  else if ext = "svg".data then some "svg"
  else if ext = "wmf".data then some "wmf"
  else if ext = "emf".data then some "emf"
  else none

/-- `filename.split('/').pop() || 'unknown.img'`. -/
def filenameOnly (filename : String) : String :=
  let l := lastComponent '/' filename.data
  if l = [] then "unknown.img" else l.asString

/-! ### Container model (`ZipAdapter` over JSZip) -/

structure ZipEntry where
  name : String
  isDir : Bool
  data : List Nat
  deriving DecidableEq, Repr

/-- A container: `corrupt` models a buffer `JSZip.loadAsync` rejects (the
adapter then throws `DocxParseError`); otherwise the ordered entry list. -/
structure ZipFile where
  corrupt : Bool
  entries : List ZipEntry
  deriving DecidableEq, Repr

/-- `ZipAdapter.extractFile` on a readable container: the named non-directory
entry or `null`. -/
def zipExtractFile (z : ZipFile) (name : String) : Option (List Nat) :=
  (z.entries.find? (fun e => e.name = name && !e.isDir)).map ZipEntry.data

/-- `ZipAdapter.extractFiles` on a readable container: all non-directory
entries matching the pattern, in entry order. -/
def zipExtractFiles (z : ZipFile) (pat : String → Bool) : List (String × List Nat) :=
  (z.entries.filter (fun e => !e.isDir && pat e.name)).map (fun e => (e.name, e.data))

/-- `buffer.toString('utf-8')` modelled byte-per-character (exact for ASCII
parts, which is all the concrete inputs use). -/
def bytesToString (b : List Nat) : String := (b.map Char.ofNat).asString

/-- Bytes of an ASCII string, for building concrete containers. -/
def strBytes (s : String) : List Nat := s.data.map Char.toNat

/-- `/^word\/media\//`. -/
def isMediaName (n : String) : Bool := "word/media/".data.isPrefixOf n.data

/-- `digits ++ ".xml"`. -/
def digitsXml (l : List Char) : Bool :=
  4 ≤ l.length && (l.take (l.length - 4)).all Char.isDigit && l.drop (l.length - 4) = ".xml".data

/-- `/^word\/header\d*\.xml$/`. -/
def isHeaderName (n : String) : Bool :=
  "word/header".data.isPrefixOf n.data && digitsXml (n.data.drop 11)

/-- `/^word\/footer\d*\.xml$/`. -/
def isFooterName (n : String) : Bool :=
  "word/footer".data.isPrefixOf n.data && digitsXml (n.data.drop 11)

/-! ### Options (`ParseOptions` and the defaults set in `parse`) -/

structure ParseOptions where
  includeMetadata : Option Bool := none
  includeImages : Option Bool := none
  includeTables : Option Bool := none
  includeHeaders : Option Bool := none
  includeFooters : Option Bool := none
  imageFormat : Option String := none
  maxImageSize : Option Nat := none
  preserveFormatting : Option Bool := none
  normalizeWhitespace : Option Bool := none
  chunkSize : Option Nat := none
  concurrent : Option Bool := none
  deriving DecidableEq, Repr

structure ResolvedOptions where
  includeMetadata : Bool
  includeImages : Bool
  includeTables : Bool
  includeHeaders : Bool
  includeFooters : Bool
  imageFormat : String
  maxImageSize : Nat
  preserveFormatting : Bool
  normalizeWhitespace : Bool
  chunkSize : Nat
  concurrent : Bool
  deriving DecidableEq, Repr

/-- The `opts` record built at the top of `DocxRepository.parse`. -/
def resolveOptions (o : ParseOptions) : ResolvedOptions :=
  { includeMetadata := o.includeMetadata.getD true
    includeImages := o.includeImages.getD true
    includeTables := o.includeTables.getD true
    includeHeaders := o.includeHeaders.getD false
    includeFooters := o.includeFooters.getD false
    imageFormat := o.imageFormat.getD "buffer"
    maxImageSize := o.maxImageSize.getD (10 * 1024 * 1024)
    preserveFormatting := o.preserveFormatting.getD true
    normalizeWhitespace := o.normalizeWhitespace.getD true
    chunkSize := o.chunkSize.getD (64 * 1024)
    concurrent := o.concurrent.getD false }

/-! ### The element model (`DocumentElement` with the ad-hoc extra fields) -/

inductive ElemType
  | metadata | paragraph | header | footer | table | image
  deriving DecidableEq, Repr

structure Position where
  page : Nat
  «section» : Nat
  order : Nat
  deriving DecidableEq, Repr

structure MetaContent where
  title : Option String := none
  author : Option String := none
  subject : Option String := none
  created : Option String := none
  modified : Option String := none
  deriving DecidableEq, Repr

structure TableCell where
  content : String
  deriving DecidableEq, Repr

structure TableRow where
  cells : List TableCell
  isHeader : Bool
  deriving DecidableEq, Repr

inductive ElemContent
  | text (t : String)
  | meta (m : MetaContent)
  | table (rows : List TableRow)
  | image (data : List Nat)
  deriving DecidableEq, Repr

structure ElemFormatting where
  fontFamily : String
  fontSize : Nat
  flags : FormatFlags
  deriving DecidableEq, Repr

structure ImageMeta where
  filename : String
  format : String
  width : Nat
  height : Nat
  deriving DecidableEq, Repr

/-- One emitted element.  Optional fields model the properties the source
attaches ad hoc (`checkbox`, `hasPageNumber`, `watermark`, `footnoteId`,
`isFootnote`, image metadata / positioning); `none` means absent. -/
structure DocumentElement where
  type : ElemType
  id : String
  position : Position
  content : ElemContent
  level : Option Nat := none
  formatting : Option ElemFormatting := none
  checkbox : Option Bool := none
  hasPageNumber : Option Bool := none
  watermark : Option String := none
  footnoteId : Option String := none
  isFootnote : Option Bool := none
  imageMeta : Option ImageMeta := none
  inlinePositioning : Option Bool := none
  deriving DecidableEq, Repr

/-! ### The extraction stages of `DocxRepository.parse` -/

/-- `getNextId` (`element_${++elementId}`): the rendered id and new counter. -/
def mkId (c : Nat) : String := "element_" ++ Nat.repr (c + 1)

/-- The parsed `docProps/core.xml` content. -/
def parseMetaContent (xml : String) : MetaContent :=
  { title := extractMetadataValue xml "dc:title"
    author := extractMetadataValue xml "dc:creator"
    subject := extractMetadataValue xml "dc:subject"
    created := extractMetadataDate xml "dcterms:created"
    modified := extractMetadataDate xml "dcterms:modified" }

/-- Content of the single metadata element: a read failure (corrupt
container) is caught and yields the empty content, a missing part yields the
fixed placeholder, otherwise the parsed fields. -/
def metadataContentOf (z : ZipFile) : MetaContent :=
  if z.corrupt then {}
  else
    match zipExtractFile z "docProps/core.xml" with
    | some b => parseMetaContent (bytesToString b)
    | none => { title := some "Unknown Document", author := some "Unknown" }

/-- `DocxRepository.extractMetadata`: always exactly one element at position
`{page: 0, section: 0, order: 0}`, never a raise. -/
def extractMetadataStage (z : ZipFile) (c : Nat) : List DocumentElement × Nat :=
  ([{ type := .metadata, id := mkId c, position := ⟨0, 0, 0⟩,
      content := .meta (metadataContentOf z) }], c + 1)

/-- The body of the per-element loop of `DocxRepository.extractContent`:
one emitted element for one analyzed paragraph block (`level || 1` for
headers; `checkbox` added exactly when the strike flag is present and the
block is not a header). -/
def contentElemOf (opts : ResolvedOptions) (a : AnalyzedPara) (c ord : Nat) :
    DocumentElement :=
  let content := if opts.normalizeWhitespace then normalizeText a.text else a.text
  if a.isHeader then
    { type := .header, id := mkId c, position := ⟨1, 1, ord⟩, content := .text content,
      level := some (match a.level with
        | some l => if l ≠ 0 then l else 1
        | none => 1),
      formatting := some ⟨"Calibri", 12, a.formatting.getD {}⟩ }
  else
    { type := .paragraph, id := mkId c, position := ⟨1, 1, ord⟩, content := .text content,
      formatting := some ⟨"Calibri", 12, a.formatting.getD {}⟩,
      checkbox := if (a.formatting.getD {}).strike then some true else none }

theorem contentElemOf_id (opts : ResolvedOptions) (a : AnalyzedPara) (c ord : Nat) :
    (contentElemOf opts a c ord).id = mkId c := by
  cases h : a.isHeader <;> simp [contentElemOf, h]

theorem contentElemOf_order (opts : ResolvedOptions) (a : AnalyzedPara) (c ord : Nat) :
    (contentElemOf opts a c ord).position.order = ord := by
  cases h : a.isHeader <;> simp [contentElemOf, h]

theorem contentElemOf_content (opts : ResolvedOptions) (a : AnalyzedPara) (c ord : Nat) :
    (contentElemOf opts a c ord).content
      = .text (if opts.normalizeWhitespace then normalizeText a.text else a.text) := by
  cases h : a.isHeader <;> simp [contentElemOf, h]

/-- The per-element loop of `DocxRepository.extractContent`. -/
def buildContentLoop (opts : ResolvedOptions) :
    List AnalyzedPara → Nat → Nat → List DocumentElement × Nat
  | [], c, _ => ([], c)
  | a :: rest, c, ord =>
    let rec2 := buildContentLoop opts rest (c + 1) (ord + 1)
    (contentElemOf opts a c ord :: rec2.1, rec2.2)

/-- The loop of `DocxRepository.extractTables` (its own failures are caught
and contribute nothing; the scanner itself is total). -/
def buildTablesLoop (opts : ResolvedOptions) :
    List (List (List String)) → Nat → Nat → List DocumentElement × Nat
  | [], c, _ => ([], c)
  | t :: rest, c, ord =>
    let rows : List TableRow := t.map (fun r =>
      { cells := r.map (fun cell =>
          { content := if opts.normalizeWhitespace then normalizeText cell else cell })
        isHeader := false })
    let e : DocumentElement :=
      { type := .table, id := mkId c, position := ⟨1, 1, ord⟩, content := .table rows }
    let rec2 := buildTablesLoop opts rest (c + 1) (ord + 1)
    (e :: rec2.1, rec2.2)

/-- `DocxRepository.extractContent`: a corrupt container or a missing
`word/document.xml` raises (wrapped) `DocxParseError`; otherwise the
paragraph/header elements and, when requested, the tables continuing the
same order counter. -/
def extractContentStage (z : ZipFile) (opts : ResolvedOptions) (c : Nat) :
    Except String (List DocumentElement × Nat) :=
  if z.corrupt then
    .error "Failed to extract content: Failed to extract file word/document.xml: invalid container"
  else
    match zipExtractFile z "word/document.xml" with
    | none => .error "Failed to extract content: Main document XML not found"
    | some b =>
      let xml := bytesToString b
      let elements := extractParagraphsWithFormattingFromXml xml
      let paras := buildContentLoop opts elements c 1
      if opts.includeTables then
        let tbls := buildTablesLoop opts (extractTablesFromXml xml) paras.2 (1 + elements.length)
        .ok (paras.1 ++ tbls.1, tbls.2)
      else
        .ok paras

/-- The loop of `DocxRepository.extractImages`: oversized or
unrecognized-format media entries are skipped silently. -/
def buildImagesLoop (opts : ResolvedOptions) :
    List (String × List Nat) → Nat → Nat → List DocumentElement × Nat
  | [], c, _ => ([], c)
  | (name, data) :: rest, c, ord =>
    if data.length > opts.maxImageSize then buildImagesLoop opts rest c ord
    else
      match getImageFormat name with
      | none => buildImagesLoop opts rest c ord
      | some fmt =>
        let e : DocumentElement :=
          { type := .image, id := mkId c, position := ⟨1, 1, ord⟩, content := .image data,
            imageMeta := some ⟨filenameOnly name, fmt, 0, 0⟩, inlinePositioning := some true }
        let rec2 := buildImagesLoop opts rest (c + 1) (ord + 1)
        (e :: rec2.1, rec2.2)

/-- `DocxRepository.extractImages` (failures caught at the stage boundary). -/
def extractImagesStage (z : ZipFile) (opts : ResolvedOptions) (c : Nat) :
    List DocumentElement × Nat :=
  if z.corrupt then ([], c)
  else buildImagesLoop opts (zipExtractFiles z isMediaName) c 1000

/-- The loop of `DocxRepository.extractHeaders` over the header part datas
(part names are ignored by the source loop). -/
def buildHeadersLoop : List (List Nat) → Nat → Nat → List DocumentElement × Nat
  | [], c, _ => ([], c)
  | b :: rest, c, ord =>
    match extractHeaderFromXml (bytesToString b) with
    | none => buildHeadersLoop rest c ord
    | some info =>
      let e : DocumentElement :=
        { type := .header, id := mkId c, position := ⟨1, 1, ord⟩, content := .text info.text,
          level := some 1,
          hasPageNumber := if info.hasPageNumber then some true else none,
          watermark := info.watermark }
      let rec2 := buildHeadersLoop rest (c + 1) (ord + 1)
      (e :: rec2.1, rec2.2)

/-- `DocxRepository.extractHeaders`. -/
def extractHeadersStage (z : ZipFile) (c : Nat) : List DocumentElement × Nat :=
  if z.corrupt then ([], c)
  else buildHeadersLoop ((zipExtractFiles z isHeaderName).map Prod.snd) c 2000

/-- The loop of `DocxRepository.extractFooters`. -/
def buildFootersLoop : List (List Nat) → Nat → Nat → List DocumentElement × Nat
  | [], c, _ => ([], c)
  | b :: rest, c, ord =>
    match extractFooterFromXml (bytesToString b) with
    | none => buildFootersLoop rest c ord
    | some info =>
      let e : DocumentElement :=
        { type := .footer, id := mkId c, position := ⟨1, 1, ord⟩, content := .text info.text,
          hasPageNumber := if info.hasPageNumber then some true else none }
      let rec2 := buildFootersLoop rest (c + 1) (ord + 1)
      (e :: rec2.1, rec2.2)

/-- `DocxRepository.extractFooters`. -/
def extractFootersStage (z : ZipFile) (c : Nat) : List DocumentElement × Nat :=
  if z.corrupt then ([], c)
  else buildFootersLoop ((zipExtractFiles z isFooterName).map Prod.snd) c 3000

/-- The loop of `DocxRepository.extractFootnotes`: footnotes are emitted as
paragraph elements tagged `footnoteId`/`isFootnote`. -/
def buildFootnotesLoop : List (String × String) → Nat → Nat → List DocumentElement × Nat
  | [], c, _ => ([], c)
  | (fid, text) :: rest, c, ord =>
    let e : DocumentElement :=
      { type := .paragraph, id := mkId c, position := ⟨1, 1, ord⟩, content := .text text,
        formatting := some ⟨"Calibri", 10, {}⟩,
        footnoteId := some fid, isFootnote := some true }
    let rec2 := buildFootnotesLoop rest (c + 1) (ord + 1)
    (e :: rec2.1, rec2.2)

/-- `DocxRepository.extractFootnotes`. -/
def extractFootnotesStage (z : ZipFile) (c : Nat) : List DocumentElement × Nat :=
  if z.corrupt then ([], c)
  else
    match zipExtractFile z "word/footnotes.xml" with
    | none => ([], c)
    | some b => buildFootnotesLoop (extractFootnotesFromXml (bytesToString b)) c 4000

/-- The outcome of one extraction run: the elements yielded before
termination, and the fatal `DocxParseError` when one was raised. -/
structure ParseResult where
  elems : List DocumentElement
  error : Option String
  deriving DecidableEq, Repr

/-- `DocxRepository.parse`: metadata (optional), content (load-bearing, its
failure aborts after any already-yielded elements), then headers, footers,
footnotes, images — one shared id counter across all stages. -/
def parse (z : ZipFile) (options : ParseOptions) : ParseResult :=
  let opts := resolveOptions options
  let ms := if opts.includeMetadata then extractMetadataStage z 0 else ([], 0)
  match extractContentStage z opts ms.2 with
  | .error e => ⟨ms.1, some ("Failed to parse DOCX document: " ++ e)⟩
  | .ok cs =>
    let hs := if opts.includeHeaders then extractHeadersStage z cs.2 else ([], cs.2)
    let fs := if opts.includeFooters then extractFootersStage z hs.2 else ([], hs.2)
    let ns := extractFootnotesStage z fs.2
    let is := if opts.includeImages then extractImagesStage z opts ns.2 else ([], ns.2)
    ⟨ms.1 ++ cs.1 ++ hs.1 ++ fs.1 ++ ns.1 ++ is.1, none⟩

/-! ### Injectivity of `Nat.repr` (used for id uniqueness) -/

/-- Decimal digit characters of `n`, most significant first (fuel-free
counterpart of `Nat.toDigitsCore`). -/
def natDigitsL (n : Nat) : List Char :=
  if n < 10 then [Nat.digitChar n]
  else natDigitsL (n / 10) ++ [Nat.digitChar (n % 10)]
termination_by n
decreasing_by
  exact Nat.div_lt_self (by omega) (by omega)

theorem natDigitsL_ne_nil (n : Nat) : natDigitsL n ≠ [] := by
  unfold natDigitsL
  split <;> simp

theorem natDigitsL_of_lt (n : Nat) (h : n < 10) : natDigitsL n = [Nat.digitChar n] := by
  unfold natDigitsL
  simp [h]

theorem natDigitsL_of_ge (n : Nat) (h : ¬n < 10) :
    natDigitsL n = natDigitsL (n / 10) ++ [Nat.digitChar (n % 10)] := by
  conv_lhs => rw [natDigitsL]
  simp [h]

theorem toDigitsCore_eq_natDigitsL :
    ∀ (fuel n : Nat) (ds : List Char), n < fuel →
      Nat.toDigitsCore 10 fuel n ds = natDigitsL n ++ ds := by
  intro fuel
  induction fuel with
  | zero => intro n ds h; omega
  | succ f ih =>
    intro n ds _
    show Nat.toDigitsCore 10 (f + 1) n ds = natDigitsL n ++ ds
    rw [Nat.toDigitsCore]
    by_cases hz : n / 10 = 0
    · have hn : n < 10 := by omega
      simp only [hz, if_true, natDigitsL_of_lt n hn, Nat.mod_eq_of_lt hn]
      simp
    · have hn : ¬n < 10 := by
        intro hc
        exact hz (Nat.div_eq_of_lt hc)
      have hlt : n / 10 < f := by
        have h1 : n / 10 < n := Nat.div_lt_self (by omega) (by omega)
        omega
      simp only [hz, if_false]
      rw [ih (n / 10) (Nat.digitChar (n % 10) :: ds) hlt, natDigitsL_of_ge n hn]
      simp

theorem natRepr_eq_digits (n : Nat) : Nat.repr n = (natDigitsL n).asString := by
  rw [Nat.repr, Nat.toDigits, toDigitsCore_eq_natDigitsL (n + 1) n [] (Nat.lt_succ_self n)]
  simp

theorem digitChar_sub_val : ∀ n < 10, (Nat.digitChar n).toNat - 48 = n := by decide

theorem digitChar_inj_lt {m n : Nat} (hm : m < 10) (hn : n < 10)
    (h : Nat.digitChar m = Nat.digitChar n) : m = n := by
  have h1 := digitChar_sub_val m hm
  have h2 := digitChar_sub_val n hn
  rw [h] at h1
  omega

theorem natDigitsL_injective : ∀ m n : Nat, natDigitsL m = natDigitsL n → m = n := by
  intro m
  induction m using Nat.strong_induction_on with
  | _ m ih =>
    intro n h
    by_cases hm : m < 10 <;> by_cases hn : n < 10
    · rw [natDigitsL_of_lt m hm, natDigitsL_of_lt n hn] at h
      simp only [List.cons.injEq, and_true] at h
      exact digitChar_inj_lt hm hn h
    · rw [natDigitsL_of_lt m hm, natDigitsL_of_ge n hn] at h
      have hlen := congrArg List.length h
      have hpos : 0 < (natDigitsL (n / 10)).length :=
        List.length_pos.mpr (natDigitsL_ne_nil (n / 10))
      simp only [List.length_cons, List.length_nil, List.length_append] at hlen
      omega
    · rw [natDigitsL_of_ge m hm, natDigitsL_of_lt n hn] at h
      have hlen := congrArg List.length h
      have hpos : 0 < (natDigitsL (m / 10)).length :=
        List.length_pos.mpr (natDigitsL_ne_nil (m / 10))
      simp only [List.length_cons, List.length_nil, List.length_append] at hlen
      omega
    · rw [natDigitsL_of_ge m hm, natDigitsL_of_ge n hn] at h
      have h2 := congrArg List.reverse h
      simp only [List.reverse_append, List.reverse_cons, List.reverse_nil, List.nil_append,
        List.singleton_append, List.cons.injEq] at h2
      obtain ⟨hd, htl⟩ := h2
      have hrev := congrArg List.reverse htl
      simp only [List.reverse_reverse] at hrev
      have hdiv : m / 10 = n / 10 :=
        ih (m / 10) (Nat.div_lt_self (by omega) (by omega)) (n / 10) hrev
      have hmod : m % 10 = n % 10 :=
        digitChar_inj_lt (Nat.mod_lt m (by omega)) (Nat.mod_lt n (by omega)) hd
      omega

theorem natRepr_injective : Function.Injective Nat.repr := by
  intro m n h
  rw [natRepr_eq_digits, natRepr_eq_digits] at h
  exact natDigitsL_injective m n (by
    have := congrArg String.data h
    simpa [List.asString] using this)

theorem mkId_injective : Function.Injective mkId := by
  intro a b h
  unfold mkId at h
  have hd := congrArg String.data h
  simp only [String.data_append] at hd
  have := List.append_cancel_left hd
  have hrepr : Nat.repr (a + 1) = Nat.repr (b + 1) := by
    apply String.ext
    exact this
  have := natRepr_injective hrepr
  omega

/-! ### Counter, id and order bookkeeping of the stage loops -/

/-- `[a, a+1, ..., a+n-1]`. -/
def natsFrom (a n : Nat) : List Nat := (List.range n).map (fun i => a + i)

/-- Ids produced by `n` successive `getNextId` calls from counter `c`. -/
def idsFrom (c n : Nat) : List String := (natsFrom c n).map mkId

theorem natsFrom_succ (a n : Nat) : natsFrom a (n + 1) = a :: natsFrom (a + 1) n := by
  unfold natsFrom
  rw [List.range_succ_eq_map]
  simp only [List.map_cons, List.map_map, Nat.add_zero]
  congr 1
  apply List.map_congr_left
  intro k _
  simp [Function.comp]
  omega

theorem natsFrom_append (a m n : Nat) :
    natsFrom a m ++ natsFrom (a + m) n = natsFrom a (m + n) := by
  induction m generalizing a with
  | zero => simp [natsFrom]
  | succ m ih =>
    have h1 : a + (m + 1) = (a + 1) + m := by omega
    have h2 : m + 1 + n = (m + n) + 1 := by omega
    rw [natsFrom_succ a m, h1, h2, natsFrom_succ a (m + n), List.cons_append, ih (a + 1)]

theorem idsFrom_succ (c n : Nat) : idsFrom c (n + 1) = mkId c :: idsFrom (c + 1) n := by
  unfold idsFrom
  rw [natsFrom_succ]
  simp

theorem idsFrom_append (c m n : Nat) :
    idsFrom c m ++ idsFrom (c + m) n = idsFrom c (m + n) := by
  unfold idsFrom
  rw [← List.map_append, natsFrom_append]

theorem natsFrom_nodup (a n : Nat) : (natsFrom a n).Nodup := by
  unfold natsFrom
  exact (List.nodup_range n).map (fun i j h => by omega)

theorem idsFrom_nodup (c n : Nat) : (idsFrom c n).Nodup := by
  unfold idsFrom
  exact (natsFrom_nodup c n).map mkId_injective

theorem mem_natsFrom {a n k : Nat} (h : k ∈ natsFrom a n) : a ≤ k ∧ k < a + n := by
  unfold natsFrom at h
  obtain ⟨i, hi, rfl⟩ := List.mem_map.mp h
  have := List.mem_range.mp hi
  omega

/-- A stage segment: the counter advances by the number of emitted elements
and the ids are the consecutive ids from the start counter. -/
def IdSeg (c : Nat) (out : List DocumentElement × Nat) : Prop :=
  out.2 = c + out.1.length ∧ out.1.map DocumentElement.id = idsFrom c out.1.length

theorem IdSeg.append {c : Nat} {p q : List DocumentElement × Nat}
    (hp : IdSeg c p) (hq : IdSeg p.2 q) : IdSeg c (p.1 ++ q.1, q.2) := by
  obtain ⟨hp1, hp2⟩ := hp
  obtain ⟨hq1, hq2⟩ := hq
  constructor
  · simp only [List.length_append]
    omega
  · simp only [List.map_append, List.length_append, hp2]
    rw [hq2, hp1]
    exact idsFrom_append c p.1.length q.1.length

theorem IdSeg.empty (c : Nat) : IdSeg c ([], c) := by
  constructor <;> simp [idsFrom, natsFrom]

/-- Order sequence of a stage loop: consecutive orders from the start. -/
def OrdSeq (ord : Nat) (out : List DocumentElement) : Prop :=
  out.map (fun e => e.position.order) = natsFrom ord out.length

theorem buildContentLoop_spec (opts : ResolvedOptions) :
    ∀ (l : List AnalyzedPara) (c ord : Nat),
      IdSeg c (buildContentLoop opts l c ord) ∧
      OrdSeq ord (buildContentLoop opts l c ord).1 := by
  intro l
  induction l with
  | nil =>
    intro c ord
    exact ⟨IdSeg.empty c, by simp [OrdSeq, buildContentLoop, natsFrom]⟩
  | cons a rest ih =>
    intro c ord
    obtain ⟨⟨ih1, ih2⟩, ih3⟩ := ih (c + 1) (ord + 1)
    simp only [buildContentLoop, IdSeg, OrdSeq, List.map_cons, List.length_cons] at *
    refine ⟨⟨by omega, ?_⟩, ?_⟩
    · rw [idsFrom_succ, ih2, contentElemOf_id]
    · rw [natsFrom_succ, ih3, contentElemOf_order]

theorem buildContentLoop_length (opts : ResolvedOptions) :
    ∀ (l : List AnalyzedPara) (c ord : Nat),
      (buildContentLoop opts l c ord).1.length = l.length := by
  intro l
  induction l with
  | nil => intro c ord; simp [buildContentLoop]
  | cons a rest ih =>
    intro c ord
    simp only [buildContentLoop, List.length_cons, ih (c + 1) (ord + 1)]

theorem buildTablesLoop_spec (opts : ResolvedOptions) :
    ∀ (l : List (List (List String))) (c ord : Nat),
      IdSeg c (buildTablesLoop opts l c ord) ∧
      OrdSeq ord (buildTablesLoop opts l c ord).1 := by
  intro l
  induction l with
  | nil =>
    intro c ord
    exact ⟨IdSeg.empty c, by simp [OrdSeq, buildTablesLoop, natsFrom]⟩
  | cons t rest ih =>
    intro c ord
    obtain ⟨⟨ih1, ih2⟩, ih3⟩ := ih (c + 1) (ord + 1)
    simp only [buildTablesLoop, IdSeg, OrdSeq, List.map_cons, List.length_cons] at *
    refine ⟨⟨by omega, ?_⟩, ?_⟩
    · rw [idsFrom_succ, ih2]
    · rw [natsFrom_succ, ih3]

theorem buildFootnotesLoop_spec :
    ∀ (l : List (String × String)) (c ord : Nat),
      IdSeg c (buildFootnotesLoop l c ord) ∧
      OrdSeq ord (buildFootnotesLoop l c ord).1 := by
  intro l
  induction l with
  | nil =>
    intro c ord
    exact ⟨IdSeg.empty c, by simp [OrdSeq, buildFootnotesLoop, natsFrom]⟩
  | cons fn rest ih =>
    intro c ord
    obtain ⟨⟨ih1, ih2⟩, ih3⟩ := ih (c + 1) (ord + 1)
    simp only [buildFootnotesLoop, IdSeg, OrdSeq, List.map_cons, List.length_cons] at *
    refine ⟨⟨by omega, ?_⟩, ?_⟩
    · rw [idsFrom_succ, ih2]
    · rw [natsFrom_succ, ih3]

theorem buildImagesLoop_spec (opts : ResolvedOptions) :
    ∀ (l : List (String × List Nat)) (c ord : Nat),
      IdSeg c (buildImagesLoop opts l c ord) ∧
      OrdSeq ord (buildImagesLoop opts l c ord).1 := by
  intro l
  induction l with
  | nil =>
    intro c ord
    exact ⟨IdSeg.empty c, by simp [OrdSeq, buildImagesLoop, natsFrom]⟩
  | cons nd rest ih =>
    intro c ord
    obtain ⟨n, d⟩ := nd
    by_cases hsz : d.length > opts.maxImageSize
    · have := ih c ord
      simpa only [buildImagesLoop, hsz, if_true] using this
    · cases hfmt : getImageFormat n with
      | none =>
        have := ih c ord
        simpa only [buildImagesLoop, hsz, if_false, hfmt] using this
      | some fmt =>
        obtain ⟨⟨ih1, ih2⟩, ih3⟩ := ih (c + 1) (ord + 1)
        simp only [buildImagesLoop, hsz, if_false, hfmt, IdSeg, OrdSeq, List.map_cons,
          List.length_cons] at *
        refine ⟨⟨by omega, ?_⟩, ?_⟩
        · rw [idsFrom_succ, ih2]
        · rw [natsFrom_succ, ih3]

theorem buildHeadersLoop_spec :
    ∀ (l : List (List Nat)) (c ord : Nat),
      IdSeg c (buildHeadersLoop l c ord) ∧
      OrdSeq ord (buildHeadersLoop l c ord).1 := by
  intro l
  induction l with
  | nil =>
    intro c ord
    exact ⟨IdSeg.empty c, by simp [OrdSeq, buildHeadersLoop, natsFrom]⟩
  | cons b rest ih =>
    intro c ord
    cases hinfo : extractHeaderFromXml (bytesToString b) with
    | none =>
      have := ih c ord
      simpa only [buildHeadersLoop, hinfo] using this
    | some info =>
      obtain ⟨⟨ih1, ih2⟩, ih3⟩ := ih (c + 1) (ord + 1)
      simp only [buildHeadersLoop, hinfo, IdSeg, OrdSeq, List.map_cons, List.length_cons] at *
      refine ⟨⟨by omega, ?_⟩, ?_⟩
      · rw [idsFrom_succ, ih2]
      · rw [natsFrom_succ, ih3]

theorem buildFootersLoop_spec :
    ∀ (l : List (List Nat)) (c ord : Nat),
      IdSeg c (buildFootersLoop l c ord) ∧
      OrdSeq ord (buildFootersLoop l c ord).1 := by
  intro l
  induction l with
  | nil =>
    intro c ord
    exact ⟨IdSeg.empty c, by simp [OrdSeq, buildFootersLoop, natsFrom]⟩
  | cons b rest ih =>
    intro c ord
    cases hinfo : extractFooterFromXml (bytesToString b) with
    | none =>
      have := ih c ord
      simpa only [buildFootersLoop, hinfo] using this
    | some info =>
      obtain ⟨⟨ih1, ih2⟩, ih3⟩ := ih (c + 1) (ord + 1)
      simp only [buildFootersLoop, hinfo, IdSeg, OrdSeq, List.map_cons, List.length_cons] at *
      refine ⟨⟨by omega, ?_⟩, ?_⟩
      · rw [idsFrom_succ, ih2]
      · rw [natsFrom_succ, ih3]

theorem extractMetadataStage_IdSeg (z : ZipFile) (c : Nat) :
    IdSeg c (extractMetadataStage z c) := by
  constructor
  · simp [extractMetadataStage]
  · simp only [extractMetadataStage, List.map_cons, List.map_nil, List.length_cons,
      List.length_nil]
    rw [idsFrom_succ]
    simp [idsFrom, natsFrom]

theorem extractContentStage_spec (z : ZipFile) (opts : ResolvedOptions) (c : Nat)
    (r : List DocumentElement × Nat) (h : extractContentStage z opts c = .ok r) :
    IdSeg c r ∧ OrdSeq 1 r.1 := by
  unfold extractContentStage at h
  split at h
  case isTrue => cases h
  case isFalse hc =>
    cases hfind : zipExtractFile z "word/document.xml" with
    | none => rw [hfind] at h; cases h
    | some b =>
      rw [hfind] at h
      dsimp only at h
      set xml := bytesToString b
      set elements := extractParagraphsWithFormattingFromXml xml with helems
      obtain ⟨hpid, hpord⟩ := buildContentLoop_spec opts elements c 1
      split at h
      case isTrue hT =>
        obtain ⟨htid, htord⟩ :=
          buildTablesLoop_spec opts (extractTablesFromXml xml)
            (buildContentLoop opts elements c 1).2 (1 + elements.length)
        cases h
        have hlen : (buildContentLoop opts elements c 1).1.length = elements.length :=
          buildContentLoop_length opts elements c 1
        constructor
        · exact hpid.append htid
        · unfold OrdSeq at hpord htord ⊢
          simp only [List.map_append, List.length_append, hpord, htord, hlen]
          exact natsFrom_append 1 elements.length _
      case isFalse hT =>
        cases h
        exact ⟨hpid, hpord⟩

theorem extractImagesStage_spec (z : ZipFile) (opts : ResolvedOptions) (c : Nat) :
    IdSeg c (extractImagesStage z opts c) ∧ OrdSeq 1000 (extractImagesStage z opts c).1 := by
  unfold extractImagesStage
  split
  · exact ⟨IdSeg.empty c, by simp [OrdSeq, natsFrom]⟩
  · exact buildImagesLoop_spec opts (zipExtractFiles z isMediaName) c 1000

theorem extractHeadersStage_spec (z : ZipFile) (c : Nat) :
    IdSeg c (extractHeadersStage z c) ∧ OrdSeq 2000 (extractHeadersStage z c).1 := by
  unfold extractHeadersStage
  split
  · exact ⟨IdSeg.empty c, by simp [OrdSeq, natsFrom]⟩
  · exact buildHeadersLoop_spec ((zipExtractFiles z isHeaderName).map Prod.snd) c 2000

theorem extractFootersStage_spec (z : ZipFile) (c : Nat) :
    IdSeg c (extractFootersStage z c) ∧ OrdSeq 3000 (extractFootersStage z c).1 := by
  unfold extractFootersStage
  split
  · exact ⟨IdSeg.empty c, by simp [OrdSeq, natsFrom]⟩
  · exact buildFootersLoop_spec ((zipExtractFiles z isFooterName).map Prod.snd) c 3000

theorem extractFootnotesStage_spec (z : ZipFile) (c : Nat) :
    IdSeg c (extractFootnotesStage z c) ∧ OrdSeq 4000 (extractFootnotesStage z c).1 := by
  unfold extractFootnotesStage
  split
  · exact ⟨IdSeg.empty c, by simp [OrdSeq, natsFrom]⟩
  · split
    · exact ⟨IdSeg.empty c, by simp [OrdSeq, natsFrom]⟩
    · exact buildFootnotesLoop_spec _ c 4000

theorem OrdSeq.mem_bounds {ord : Nat} {out : List DocumentElement} (h : OrdSeq ord out)
    {e : DocumentElement} (he : e ∈ out) :
    ord ≤ e.position.order ∧ e.position.order < ord + out.length := by
  have hm : e.position.order ∈ natsFrom ord out.length := by
    rw [← h]
    exact List.mem_map_of_mem _ he
  exact mem_natsFrom hm

theorem parse_ids (z : ZipFile) (o : ParseOptions) :
    (parse z o).elems.map DocumentElement.id = idsFrom 0 (parse z o).elems.length := by
  unfold parse
  dsimp only
  have hms : IdSeg 0
      (if (resolveOptions o).includeMetadata then extractMetadataStage z 0
       else (([] : List DocumentElement), 0)) := by
    split
    · exact extractMetadataStage_IdSeg z 0
    · exact IdSeg.empty 0
  set ms := if (resolveOptions o).includeMetadata then extractMetadataStage z 0
    else (([] : List DocumentElement), 0) with hmsdef
  cases hcs : extractContentStage z (resolveOptions o) ms.2 with
  | error e =>
    simp only [hcs]
    exact hms.2
  | ok cs =>
    simp only [hcs]
    have hcs2 : IdSeg ms.2 cs := (extractContentStage_spec z (resolveOptions o) ms.2 cs hcs).1
    have hhs : IdSeg cs.2
        (if (resolveOptions o).includeHeaders then extractHeadersStage z cs.2
         else (([] : List DocumentElement), cs.2)) := by
      split
      · exact (extractHeadersStage_spec z cs.2).1
      · exact IdSeg.empty cs.2
    set hs := if (resolveOptions o).includeHeaders then extractHeadersStage z cs.2
      else (([] : List DocumentElement), cs.2) with hhsdef
    have hfs : IdSeg hs.2
        (if (resolveOptions o).includeFooters then extractFootersStage z hs.2
         else (([] : List DocumentElement), hs.2)) := by
      split
      · exact (extractFootersStage_spec z hs.2).1
      · exact IdSeg.empty hs.2
    set fs := if (resolveOptions o).includeFooters then extractFootersStage z hs.2
      else (([] : List DocumentElement), hs.2) with hfsdef
    have hns : IdSeg fs.2 (extractFootnotesStage z fs.2) := (extractFootnotesStage_spec z fs.2).1
    set ns := extractFootnotesStage z fs.2 with hnsdef
    have his : IdSeg ns.2
        (if (resolveOptions o).includeImages then extractImagesStage z (resolveOptions o) ns.2
         else (([] : List DocumentElement), ns.2)) := by
      split
      · exact (extractImagesStage_spec z (resolveOptions o) ns.2).1
      · exact IdSeg.empty ns.2
    set is := if (resolveOptions o).includeImages then extractImagesStage z (resolveOptions o) ns.2
      else (([] : List DocumentElement), ns.2) with hisdef
    have h45 : IdSeg fs.2 (ns.1 ++ is.1, is.2) := hns.append his
    have h345 : IdSeg hs.2 (fs.1 ++ (ns.1 ++ is.1), is.2) := hfs.append h45
    have h2345 : IdSeg cs.2 (hs.1 ++ (fs.1 ++ (ns.1 ++ is.1)), is.2) := hhs.append h345
    have h12345 : IdSeg ms.2 (cs.1 ++ (hs.1 ++ (fs.1 ++ (ns.1 ++ is.1))), is.2) :=
      hcs2.append h2345
    have hall : IdSeg 0 (ms.1 ++ (cs.1 ++ (hs.1 ++ (fs.1 ++ (ns.1 ++ is.1)))), is.2) :=
      hms.append h12345
    simpa using hall.2

/-! ### Helper lemmas about the fatal-error path -/

theorem extractContentStage_missing (z : ZipFile) (opts : ResolvedOptions) (c : Nat)
    (hz : z.corrupt = false) (hdoc : zipExtractFile z "word/document.xml" = none) :
    extractContentStage z opts c
      = .error "Failed to extract content: Main document XML not found" := by
  unfold extractContentStage
  rw [hz]
  simp [hdoc]

theorem extractContentStage_isOk (z : ZipFile) (opts : ResolvedOptions) (c : Nat)
    (hz : z.corrupt = false) {b : List Nat}
    (hb : zipExtractFile z "word/document.xml" = some b) :
    ∃ r, extractContentStage z opts c = .ok r := by
  unfold extractContentStage
  rw [hz]
  simp only [Bool.false_eq_true, if_false, hb]
  split
  · exact ⟨_, rfl⟩
  · exact ⟨_, rfl⟩

theorem parse_missing_doc (z : ZipFile) (o : ParseOptions)
    (hz : z.corrupt = false) (hdoc : zipExtractFile z "word/document.xml" = none) :
    parse z o =
      ⟨(if (resolveOptions o).includeMetadata then extractMetadataStage z 0
        else ([], 0)).1,
       some ("Failed to parse DOCX document: "
         ++ "Failed to extract content: Main document XML not found")⟩ := by
  unfold parse
  dsimp only
  rw [extractContentStage_missing z (resolveOptions o) _ hz hdoc]

theorem parse_error_none_of_doc (z : ZipFile) (o : ParseOptions)
    (hz : z.corrupt = false) (hdoc : (zipExtractFile z "word/document.xml").isSome = true) :
    (parse z o).error = none := by
  obtain ⟨b, hb⟩ := Option.isSome_iff_exists.mp hdoc
  unfold parse
  dsimp only
  obtain ⟨r, hr⟩ := extractContentStage_isOk z (resolveOptions o)
    (if (resolveOptions o).includeMetadata then extractMetadataStage z 0 else ([], 0)).2
    hz hb
  rw [hr]

/-! ### Concrete containers for the counterexamples and witnesses -/

/-- A readable container with no `word/document.xml`. -/
def zC1 : ZipFile := ⟨false, [⟨"docProps/app.xml", false, strBytes "<x/>"⟩]⟩

/-- Options disabling metadata. -/
def optsNoMeta : ParseOptions := { includeMetadata := some false }

/-- C1 claim, settled: the claim asserts that a run on a container missing
the primary content part emits no elements before the fatal error; the code
yields the fallback Metadata element first (under default options), then
raises. -/
theorem C1_counterexample :
    (parse zC1 {}).error.isSome = true ∧
    (parse zC1 {}).elems.length = 1 ∧
    (parse zC1 {}).elems.map DocumentElement.type = [ElemType.metadata] := by
  decide

/-- C1 (amended): for every readable container lacking `word/document.xml`
and every options value, extraction raises a fatal typed parse error; the
only element that may precede it is the single Metadata element (present
exactly when `includeMetadata` is enabled, its default); with
`includeMetadata` disabled no elements at all are emitted before the
error. -/
theorem C1_amended (z : ZipFile) (o : ParseOptions)
    (hz : z.corrupt = false) (hdoc : zipExtractFile z "word/document.xml" = none) :
    (parse z o).error.isSome = true ∧
    (∀ e ∈ (parse z o).elems, e.type = ElemType.metadata) ∧
    (parse z o).elems.length ≤ 1 ∧
    ((resolveOptions o).includeMetadata = false → (parse z o).elems = []) := by
  rw [parse_missing_doc z o hz hdoc]
  dsimp only
  refine ⟨rfl, ?_, ?_, ?_⟩
  · intro e he
    split at he
    · simp only [extractMetadataStage, List.mem_singleton] at he
      rw [he]
    · simp at he
  · split
    · simp [extractMetadataStage]
    · simp
  · intro hm
    split
    · rename_i hcond
      rw [hm] at hcond
      simp at hcond
    · rfl

theorem C1_amended_witness :
    (parse zC1 optsNoMeta).error.isSome = true ∧ (parse zC1 optsNoMeta).elems = [] := by
  have h := C1_amended zC1 optsNoMeta (by decide) (by decide)
  exact ⟨h.1, h.2.2.2 (by decide)⟩

/-- C3: within one run the emitted ids are exactly `element_1, element_2, …`
in emission order (the shared counter), hence pairwise distinct and strictly
increasing in the numeric suffix. -/
theorem C3_ids_unique_increasing (z : ZipFile) (o : ParseOptions) :
    (parse z o).elems.map DocumentElement.id
      = (List.range (parse z o).elems.length).map (fun k => "element_" ++ Nat.repr (k + 1)) ∧
    ((parse z o).elems.map DocumentElement.id).Nodup := by
  have h := parse_ids z o
  constructor
  · rw [h]
    unfold idsFrom natsFrom mkId
    rw [List.map_map]
    apply List.map_congr_left
    intro k _
    simp [Function.comp]
  · rw [h]
    exact idsFrom_nodup 0 _

/-- A readable container with a valid content part and no
`docProps/core.xml`. -/
def zC4 : ZipFile :=
  ⟨false, [⟨"word/document.xml", false, strBytes "<w:p><w:r><w:t>hi</w:t></w:r></w:p>"⟩]⟩

/-- C4 claim, settled: with the metadata part missing, the single Metadata
element carries the fixed placeholder content (`title: 'Unknown Document'`,
`author: 'Unknown'`), not the zero-content the claim asserts. -/
theorem C4_counterexample :
    ((parse zC4 {}).elems.head?.map (fun e => e.content))
      = some (.meta { title := some "Unknown Document", author := some "Unknown" }) ∧
    (parse zC4 {}).error = none ∧
    ({ title := some "Unknown Document", author := some "Unknown" } : MetaContent)
      ≠ ({} : MetaContent) := by
  decide

/-- C4 (amended): whenever metadata extraction is requested, the stage yields
exactly one Metadata element and never raises; its content is empty when the
container is unreadable at this stage, the fixed placeholder (`Unknown
Document` / `Unknown`) when the part is missing, and the parsed fields
(each absent when not found, hence zero-content for malformed parts) when
the part is present.  A run on a container with a valid content part never
raises, whatever the metadata part looks like. -/
theorem C4_amended (z : ZipFile) (c : Nat) :
    (extractMetadataStage z c).1.length = 1 ∧
    (∀ e ∈ (extractMetadataStage z c).1, e.type = ElemType.metadata) ∧
    (z.corrupt = true →
      (extractMetadataStage z c).1.map (fun e => e.content) = [.meta {}]) ∧
    (z.corrupt = false → zipExtractFile z "docProps/core.xml" = none →
      (extractMetadataStage z c).1.map (fun e => e.content)
        = [.meta { title := some "Unknown Document", author := some "Unknown" }]) ∧
    (∀ b, z.corrupt = false → zipExtractFile z "docProps/core.xml" = some b →
      (extractMetadataStage z c).1.map (fun e => e.content)
        = [.meta (parseMetaContent (bytesToString b))]) ∧
    (∀ o : ParseOptions, z.corrupt = false →
      (zipExtractFile z "word/document.xml").isSome = true → (parse z o).error = none) := by
  refine ⟨rfl, ?_, ?_, ?_, ?_, ?_⟩
  · intro e he
    simp only [extractMetadataStage, List.mem_singleton] at he
    rw [he]
  · intro hc
    simp [extractMetadataStage, metadataContentOf, hc]
  · intro hc hnone
    simp [extractMetadataStage, metadataContentOf, hc, hnone]
  · intro b hc hsome
    simp [extractMetadataStage, metadataContentOf, hc, hsome]
  · intro o hc hdoc
    exact parse_error_none_of_doc z o hc hdoc

theorem C4_amended_witness :
    (extractMetadataStage zC4 0).1.map (fun e => e.content)
      = [.meta { title := some "Unknown Document", author := some "Unknown" }] ∧
    (parse zC4 optsNoMeta).error = none := by
  have h := C4_amended zC4 0
  exact ⟨h.2.2.2.1 (by decide) (by decide), h.2.2.2.2.2 optsNoMeta (by decide) (by decide)⟩

/-- A readable container whose content part holds one valid paragraph and a
malformed (unterminated) table block. -/
def zC8 : ZipFile :=
  ⟨false, [⟨"word/document.xml", false,
    strBytes "<w:p><w:r><w:t>hello</w:t></w:r></w:p><w:tbl><w:tr><w:tc>broken"⟩]⟩

/-- C8: a failure confined to table markup never reaches the caller — every
run on a readable container with a content part finishes without error, and
on the concrete malformed-table container the paragraph is emitted normally
while zero table elements appear. -/
theorem C8_table_failure_isolated :
    (∀ (z : ZipFile) (o : ParseOptions), z.corrupt = false →
        (zipExtractFile z "word/document.xml").isSome = true →
        (parse z o).error = none) ∧
    ((parse zC8 {}).error = none ∧
      (parse zC8 {}).elems.countP (fun e => e.type = ElemType.table) = 0 ∧
      (parse zC8 {}).elems.countP (fun e => e.type = ElemType.paragraph) = 1 ∧
      ∃ e ∈ (parse zC8 {}).elems, e.type = ElemType.paragraph ∧ e.content = .text "hello") := by
  refine ⟨fun z o hz hdoc => parse_error_none_of_doc z o hz hdoc, ?_⟩
  decide

theorem C8_witness : (parse zC8 {}).error = none :=
  C8_table_failure_isolated.1 zC8 {} (by decide) (by decide)

/-- A readable container whose media folder holds 1001 one-byte PNG files
(and an empty content part), enough to overflow the image order band. -/
def zC2 : ZipFile :=
  ⟨false, ⟨"word/document.xml", false, []⟩ ::
    (List.range 1001).map (fun i => ⟨"word/media/" ++ Nat.repr i ++ ".png", false, [0]⟩)⟩

set_option maxRecDepth 10000 in
/-- C2 claim, settled: with 1001 emitted images the image stage assigns an
order of at least 2000 (the 1001st image gets order 1000 + 1000), violating
the claimed strict upper bound `order < 2000` for image elements. -/
theorem C2_counterexample :
    ((extractImagesStage zC2 (resolveOptions {}) 0).1.any
      (fun e => 2000 ≤ e.position.order)) = true := by
  decide

/-- C2 (amended): stage orders are consecutive from the stage base — content
orders are exactly `1, 2, …`; image orders start at 1000 (so every image
order is ≥ 1000, and < 2000 whenever the stage emits at most 1000 elements);
header-stage orders start at 2000 (< 3000 under the same proviso); footer
orders start at 3000 (< 4000 likewise); footnote orders are ≥ 4000.  A stage
emitting more than 1000 elements overflows its band. -/
theorem C2_amended (z : ZipFile) (opts : ResolvedOptions) (c : Nat) :
    (∀ r, extractContentStage z opts c = .ok r →
      r.1.map (fun e => e.position.order) = natsFrom 1 r.1.length ∧
      ∀ e ∈ r.1, 1 ≤ e.position.order) ∧
    (∀ e ∈ (extractImagesStage z opts c).1,
      1000 ≤ e.position.order ∧
      ((extractImagesStage z opts c).1.length ≤ 1000 → e.position.order < 2000)) ∧
    (∀ e ∈ (extractHeadersStage z c).1,
      2000 ≤ e.position.order ∧
      ((extractHeadersStage z c).1.length ≤ 1000 → e.position.order < 3000)) ∧
    (∀ e ∈ (extractFootersStage z c).1,
      3000 ≤ e.position.order ∧
      ((extractFootersStage z c).1.length ≤ 1000 → e.position.order < 4000)) ∧
    (∀ e ∈ (extractFootnotesStage z c).1, 4000 ≤ e.position.order) := by
  refine ⟨?_, ?_, ?_, ?_, ?_⟩
  · intro r hr
    have hspec := (extractContentStage_spec z opts c r hr).2
    refine ⟨hspec, fun e he => (OrdSeq.mem_bounds hspec he).1⟩
  · intro e he
    have h := OrdSeq.mem_bounds (extractImagesStage_spec z opts c).2 he
    exact ⟨h.1, fun hlen => by omega⟩
  · intro e he
    have h := OrdSeq.mem_bounds (extractHeadersStage_spec z c).2 he
    exact ⟨h.1, fun hlen => by omega⟩
  · intro e he
    have h := OrdSeq.mem_bounds (extractFootersStage_spec z c).2 he
    exact ⟨h.1, fun hlen => by omega⟩
  · intro e he
    exact (OrdSeq.mem_bounds (extractFootnotesStage_spec z c).2 he).1

/-- A small readable container with one valid media image. -/
def zImg : ZipFile :=
  ⟨false, [⟨"word/document.xml", false, []⟩, ⟨"word/media/a.png", false, [0]⟩]⟩

theorem C2_amended_witness :
    (extractImagesStage zImg (resolveOptions {}) 0).1.all
      (fun e => 1000 ≤ e.position.order && e.position.order < 2000) = true := by
  have h := C2_amended zImg (resolveOptions {}) 0
  rw [List.all_eq_true]
  intro e he
  have hb := h.2.1 e he
  have h2 := hb.2 (by decide)
  simp only [Bool.and_eq_true, decide_eq_true_eq]
  exact ⟨hb.1, h2⟩

/-- Any style value containing `subtitle` (case-insensitively) contains
`title`, so when the Title regex finds nothing the subtitle regex cannot
find anything either: the subtitle branch of `analyzeStyleForHeader` is
unreachable. -/
theorem findStyleVal_subtitle_none {xml : String} (h : findStyleVal xml "title" = none) :
    findStyleVal xml "subtitle" = none := by
  unfold findStyleVal at h ⊢
  rw [Option.map_eq_none'] at h ⊢
  cases hf : (styleCandidates xml.data).find? (fun q => ciContains q "subtitle".data) with
  | none => rfl
  | some q =>
    exfalso
    have hq := List.find?_some hf
    have hmem : q ∈ styleCandidates xml.data := List.mem_of_find?_eq_some hf
    have hnone := List.find?_eq_none.mp h q hmem
    apply hnone
    unfold ciContains at hq ⊢
    have hsub : toLowerL "subtitle".data <:+: toLowerL q := of_decide_eq_true hq
    have hti : toLowerL "title".data <:+: toLowerL "subtitle".data := by decide
    exact decide_eq_true (hti.trans hsub)

/-- C5 claim, settled: a style value `Subtitle` is classified as a Header of
level 1 (the Title branch fires first, since `subtitle` contains `title`),
not level 2 as claimed; and a style value `h2` (matching `h<digit>` but not
containing `heading`) is classified as a plain Paragraph, not a Header of
level 2. -/
theorem C5_counterexample :
    analyzeStyleForHeader "<w:pPr><w:pStyle w:val=\"Subtitle\"/></w:pPr>" = ⟨true, some 1⟩ ∧
    analyzeStyleForHeader "<w:pPr><w:pStyle w:val=\"Subtitle\"/></w:pPr>" ≠ ⟨true, some 2⟩ ∧
    analyzeStyleForHeader "<w:pPr><w:pStyle w:val=\"h2\"/></w:pPr>" = ⟨false, none⟩ := by
  decide

/-- C5 (amended): classification from the style reference value: if a
`w:pStyle` value containing `heading` is found, a Header with the level
parsed from `heading<digits>`/`h<digits>` in the lowercased value (default
1); otherwise if a value containing `title` is found, a Header with level 1 —
this includes every value containing `subtitle`, so the level-2 subtitle
branch is dead code; otherwise a Paragraph.  A value matching `h<digit>`
alone is classified as a Paragraph.  `Heading2` still yields a Header of
level 2 (Scenario D). -/
theorem C5_amended :
    (∀ xml : String,
      analyzeStyleForHeader xml =
        (match findStyleVal xml "heading" with
         | some v => ⟨true, some (headingLevelOf v)⟩
         | none =>
           if (findStyleVal xml "title").isSome then ⟨true, some 1⟩
           else ⟨false, none⟩)) ∧
    analyzeStyleForHeader "<w:pPr><w:pStyle w:val=\"Heading2\"/></w:pPr>" = ⟨true, some 2⟩ ∧
    analyzeStyleForHeader "<w:pPr><w:pStyle w:val=\"Title\"/></w:pPr>" = ⟨true, some 1⟩ ∧
    analyzeStyleForHeader "<w:pPr><w:pStyle w:val=\"MyStyle\"/></w:pPr>" = ⟨false, none⟩ := by
  refine ⟨?_, by decide, by decide, by decide⟩
  intro xml
  unfold analyzeStyleForHeader
  cases findStyleVal xml "heading" with
  | some v => rfl
  | none =>
    dsimp only
    by_cases ht : (findStyleVal xml "title").isSome
    · simp [ht]
    · have hnone : findStyleVal xml "title" = none := Option.not_isSome_iff_eq_none.mp ht
      simp [ht, findStyleVal_subtitle_none hnone]

/-! ### Canonical-form lemmas for whitespace normalization (claim C6) -/

/-- Every whitespace character of the list is a plain space. -/
def WsIsSpace (l : List Char) : Prop := ∀ ch ∈ l, isJsWs ch = true → ch = ' '

/-- No two adjacent whitespace characters. -/
def NoTwoWs (l : List Char) : Prop :=
  l.Chain' (fun a b => isJsWs a = false ∨ isJsWs b = false)

theorem head_dropWhile_not {p : Char → Bool} :
    ∀ (l : List Char) {d : Char}, (l.dropWhile p).head? = some d → p d = false := by
  intro l
  induction l with
  | nil => intro d h; simp [List.dropWhile] at h
  | cons c rest ih =>
    intro d h
    rw [List.dropWhile_cons] at h
    split at h
    · exact ih h
    · rename_i hc
      simp only [List.head?_cons, Option.some.injEq] at h
      subst h
      simpa using hc

theorem collapseWs_head? (l : List Char) :
    (collapseWs l).head? = l.head?.map (fun d => if isJsWs d then ' ' else d) := by
  cases l with
  | nil => rfl
  | cons c rest =>
    rw [collapseWs_cons]
    split
    · rename_i h
      simp [h]
    · rename_i h
      simp only [Bool.not_eq_true] at h
      simp [h]

theorem collapseWs_wsIsSpace (l : List Char) : WsIsSpace (collapseWs l) := by
  have H : ∀ (n : Nat) (l : List Char), l.length ≤ n → WsIsSpace (collapseWs l) := by
    intro n
    induction n with
    | zero =>
      intro l hl
      have : l = [] := List.length_eq_zero.mp (by omega)
      subst this
      intro ch hch
      simp [collapseWs_nil] at hch
    | succ n ih =>
      intro l hl
      cases l with
      | nil => intro ch hch; simp [collapseWs_nil] at hch
      | cons c rest =>
        rw [collapseWs_cons]
        simp only [List.length_cons] at hl
        split
        · intro ch hch hws
          rcases List.mem_cons.mp hch with h | h
          · exact h
          · have hle : (rest.dropWhile isJsWs).length ≤ n := by
              have := (List.dropWhile_sublist (p := isJsWs) (l := rest)).length_le
              omega
            exact ih (rest.dropWhile isJsWs) hle ch h hws
        · rename_i hc
          intro ch hch hws
          rcases List.mem_cons.mp hch with h | h
          · subst h
            simp [hws] at hc
          · exact ih rest (by omega) ch h hws
  exact H l.length l le_rfl

theorem collapseWs_noTwoWs (l : List Char) : NoTwoWs (collapseWs l) := by
  have H : ∀ (n : Nat) (l : List Char), l.length ≤ n → NoTwoWs (collapseWs l) := by
    intro n
    induction n with
    | zero =>
      intro l hl
      have : l = [] := List.length_eq_zero.mp (by omega)
      subst this
      simp [collapseWs_nil, NoTwoWs]
    | succ n ih =>
      intro l hl
      cases l with
      | nil => simp [collapseWs_nil, NoTwoWs]
      | cons c rest =>
        rw [collapseWs_cons]
        simp only [List.length_cons] at hl
        split
        · rename_i hc
          have hle : (rest.dropWhile isJsWs).length ≤ n := by
            have := (List.dropWhile_sublist (p := isJsWs) (l := rest)).length_le
            omega
          unfold NoTwoWs
          rw [List.chain'_cons']
          refine ⟨?_, ih (rest.dropWhile isJsWs) hle⟩
          intro y hy
          rw [collapseWs_head?] at hy
          cases hh : (rest.dropWhile isJsWs).head? with
          | none => rw [hh] at hy; simp at hy
          | some d =>
            rw [hh] at hy
            have hd : isJsWs d = false := head_dropWhile_not rest hh
            simp only [Option.map_some', hd, Bool.false_eq_true, if_false,
              Option.mem_some_iff] at hy
            subst hy
            exact Or.inr hd
        · rename_i hc
          simp only [Bool.not_eq_true] at hc
          unfold NoTwoWs
          rw [List.chain'_cons']
          exact ⟨fun y _ => Or.inl hc, ih rest (by omega)⟩
  exact H l.length l le_rfl

theorem noTwoWs_reverse {l : List Char} (h : NoTwoWs l) : NoTwoWs l.reverse := by
  unfold NoTwoWs at *
  rw [List.chain'_reverse]
  exact h.imp (fun a b hab => hab.symm)

theorem noTwoWs_dropWhile {p : Char → Bool} {l : List Char} (h : NoTwoWs l) :
    NoTwoWs (l.dropWhile p) := by
  obtain ⟨t, ht⟩ : l.dropWhile p <:+ l := List.dropWhile_suffix p
  unfold NoTwoWs at *
  rw [← ht] at h
  exact (List.chain'_append.mp h).2.1

theorem wsIsSpace_sub {l m : List Char} (hsub : ∀ x ∈ m, x ∈ l) (h : WsIsSpace l) :
    WsIsSpace m := fun ch hch => h ch (hsub ch hch)

theorem mem_trimWs {l : List Char} {x : Char} (hx : x ∈ trimWs l) : x ∈ l := by
  unfold trimWs at hx
  rw [List.mem_reverse] at hx
  have h1 := (List.dropWhile_sublist (p := isJsWs) (l := (l.dropWhile isJsWs).reverse)).subset hx
  rw [List.mem_reverse] at h1
  exact (List.dropWhile_sublist (p := isJsWs) (l := l)).subset h1

theorem noTwoWs_trimWs {l : List Char} (h : NoTwoWs l) : NoTwoWs (trimWs l) := by
  unfold trimWs
  exact noTwoWs_reverse (noTwoWs_dropWhile (noTwoWs_reverse (noTwoWs_dropWhile h)))

theorem trimWs_head?_not {l : List Char} {d : Char} (h : (trimWs l).head? = some d) :
    isJsWs d = false := by
  unfold trimWs at h
  have hsuf : (l.dropWhile isJsWs).reverse.dropWhile isJsWs <:+ (l.dropWhile isJsWs).reverse :=
    List.dropWhile_suffix isJsWs
  have hpre : ((l.dropWhile isJsWs).reverse.dropWhile isJsWs).reverse <+: l.dropWhile isJsWs := by
    have h2 := List.reverse_prefix.mpr hsuf
    rwa [List.reverse_reverse] at h2
  obtain ⟨t, ht⟩ := hpre
  cases hYr : ((l.dropWhile isJsWs).reverse.dropWhile isJsWs).reverse with
  | nil => rw [hYr] at h; simp at h
  | cons a tl =>
    rw [hYr] at h
    simp only [List.head?_cons, Option.some.injEq] at h
    rw [hYr] at ht
    have hhead : (l.dropWhile isJsWs).head? = some a := by
      rw [← ht]
      rfl
    have hws := head_dropWhile_not l hhead
    rwa [h] at hws

theorem trimWs_getLast?_not {l : List Char} {d : Char} (h : (trimWs l).getLast? = some d) :
    isJsWs d = false := by
  unfold trimWs at h
  rw [List.getLast?_reverse] at h
  exact head_dropWhile_not _ h


theorem collapseWs_fixed : ∀ {l : List Char}, NoTwoWs l → WsIsSpace l → collapseWs l = l := by
  intro l
  induction l with
  | nil => intro _ _; rfl
  | cons c rest ih =>
    intro h1 h2
    have hcons := List.chain'_cons'.mp h1
    have hrest1 : NoTwoWs rest := hcons.2
    have hrest2 : WsIsSpace rest := wsIsSpace_sub (fun x hx => List.mem_cons_of_mem c hx) h2
    rw [collapseWs_cons]
    split
    · rename_i hc
      have hcsp : c = ' ' := h2 c (List.mem_cons_self c rest) hc
      have hdw : rest.dropWhile isJsWs = rest := by
        cases rest with
        | nil => rfl
        | cons d t =>
          rcases hcons.1 d (by simp) with hx | hx
          · rw [hc] at hx; cases hx
          · rw [List.dropWhile_cons]
            simp [hx]
      rw [hdw, ih hrest1 hrest2, hcsp]
    · rw [ih hrest1 hrest2]

theorem trimWs_fixed {l : List Char}
    (hh : ∀ d, l.head? = some d → isJsWs d = false)
    (hl : ∀ d, l.getLast? = some d → isJsWs d = false) : trimWs l = l := by
  unfold trimWs
  have h1 : l.dropWhile isJsWs = l := by
    cases l with
    | nil => rfl
    | cons c t =>
      rw [List.dropWhile_cons]
      simp [hh c rfl]
  rw [h1]
  have h2 : l.reverse.dropWhile isJsWs = l.reverse := by
    cases hr : l.reverse with
    | nil => rfl
    | cons c t =>
      have hgl : l.getLast? = some c := by
        rw [← List.head?_reverse, hr]
        rfl
      rw [List.dropWhile_cons]
      simp [hl c hgl]
  rw [h2, List.reverse_reverse]

theorem trimWs_collapse_fixed (x : List Char) :
    trimWs (trimWs (collapseWs x)) = trimWs (collapseWs x) :=
  trimWs_fixed (fun _ hd => trimWs_head?_not hd) (fun _ hd => trimWs_getLast?_not hd)

theorem collapse_trim_collapse_fixed (x : List Char) :
    collapseWs (trimWs (collapseWs x)) = trimWs (collapseWs x) :=
  collapseWs_fixed (noTwoWs_trimWs (collapseWs_noTwoWs x))
    (wsIsSpace_sub (fun _ hy => mem_trimWs hy) (collapseWs_wsIsSpace x))

/-- The output of `trim ∘ collapse` is a `normalizeText` fixed point. -/
theorem normalizeTextL_fixed (x : List Char) :
    normalizeTextL (trimWs (collapseWs x)) = trimWs (collapseWs x) := by
  unfold normalizeTextL
  rw [collapse_trim_collapse_fixed, trimWs_collapse_fixed]

theorem normalizeTextL_extractText (l : List Char) :
    normalizeTextL (extractTextFromXmlL l) = extractTextFromXmlL l := normalizeTextL_fixed _

theorem trimWs_extractText (l : List Char) :
    trimWs (extractTextFromXmlL l) = extractTextFromXmlL l := trimWs_collapse_fixed _

theorem normalizeText_asString (l : List Char) :
    normalizeText l.asString = (normalizeTextL l).asString := rfl

/-- `extractTextFromXml` output is already whitespace-normalized: the
adapter collapses and trims unconditionally. -/
theorem normalizeText_extractTextFromXml (s : String) :
    normalizeText (extractTextFromXml s) = extractTextFromXml s := by
  unfold extractTextFromXml
  rw [normalizeText_asString, normalizeTextL_extractText]

/-- Every analyzed paragraph's text is already whitespace-normalized. -/
theorem extractParas_text_fixed (xml : String) :
    ∀ a ∈ extractParagraphsWithFormattingFromXml xml, normalizeText a.text = a.text := by
  intro a ha
  unfold extractParagraphsWithFormattingFromXml at ha
  rw [List.mem_filterMap] at ha
  obtain ⟨p, _, hfa⟩ := ha
  split at hfa
  · cases hfa
  · try dsimp only at hfa
    split at hfa
    · cases hfa
    · cases hfa
      show normalizeText (trimWs (extractTextFromXmlL p)).asString = _
      rw [trimWs_extractText, normalizeText_asString, normalizeTextL_extractText]

/-- Every extracted table cell's text is already whitespace-normalized. -/
theorem extractTables_cells_fixed (xml : String) :
    ∀ t ∈ extractTablesFromXml xml, ∀ row ∈ t, ∀ cell ∈ row,
      normalizeText cell = cell := by
  intro t ht row hrow cell hcell
  unfold extractTablesFromXml at ht
  rw [List.mem_filterMap] at ht
  obtain ⟨tbl, _, hft⟩ := ht
  split at hft
  · cases hft
  · try dsimp only at hft
    split at hft
    · cases hft
    · cases hft
      rw [List.mem_filterMap] at hrow
      obtain ⟨r, _, hfr⟩ := hrow
      split at hfr
      · cases hfr
      · try dsimp only at hfr
        split at hfr
        · cases hfr
        · cases hfr
          rw [List.mem_filterMap] at hcell
          obtain ⟨cl, _, hfc⟩ := hcell
          split at hfc
          · cases hfc
          · cases hfc
            exact normalizeText_extractTextFromXml _

theorem buildContentLoop_contents (opts : ResolvedOptions) :
    ∀ (l : List AnalyzedPara) (c ord : Nat),
      (buildContentLoop opts l c ord).1.map (fun e => e.content)
        = l.map (fun a => ElemContent.text
            (if opts.normalizeWhitespace then normalizeText a.text else a.text)) := by
  intro l
  induction l with
  | nil => intro c ord; rfl
  | cons a rest ih =>
    intro c ord
    simp only [buildContentLoop, List.map_cons, ih (c + 1) (ord + 1)]
    rw [contentElemOf_content]

theorem buildTablesLoop_contents (opts : ResolvedOptions) :
    ∀ (l : List (List (List String))) (c ord : Nat),
      (buildTablesLoop opts l c ord).1.map (fun e => e.content)
        = l.map (fun t => ElemContent.table (t.map (fun r =>
            ⟨r.map (fun cell => ⟨if opts.normalizeWhitespace then normalizeText cell
              else cell⟩), false⟩))) := by
  intro l
  induction l with
  | nil => intro c ord; rfl
  | cons t rest ih =>
    intro c ord
    simp only [buildTablesLoop, List.map_cons, ih (c + 1) (ord + 1)]

/-- A content part whose single paragraph run holds the two-space raw text
`a  b`. -/
def zC6 : ZipFile :=
  ⟨false, [⟨"word/document.xml", false, strBytes "<w:p><w:r><w:t>a  b</w:t></w:r></w:p>"⟩]⟩

/-- Options disabling whitespace normalization. -/
def optsRawWs : ParseOptions := { normalizeWhitespace := some false }

/-- C6 claim, settled: with `normalizeWhitespace` disabled the raw run text
`a  b` is not preserved — the emitted paragraph carries the collapsed text
`a b`, because the adapter's text extraction normalizes unconditionally. -/
theorem C6_counterexample :
    ((parse zC6 optsRawWs).elems.map (fun e => e.content))
      = [.meta { title := some "Unknown Document", author := some "Unknown" },
         .text "a b"] ∧
    ("a b" : String) ≠ "a  b" := by
  decide

/-- C6 (amended): the element builder re-applies normalization exactly when
`normalizeWhitespace` is enabled, but the adapter's `extractTextFromXml`
already collapses runs of whitespace and trims unconditionally, so every
paragraph/header text and table-cell text is a `normalizeText` fixed point
and the emitted content is the same — the already-collapsed adapter text —
under both option settings; raw (un-collapsed) run text is never
preserved. -/
theorem C6_amended :
    (∀ (xml : String) (opts : ResolvedOptions) (c ord : Nat),
      (buildContentLoop opts (extractParagraphsWithFormattingFromXml xml) c ord).1.map
          (fun e => e.content)
        = (extractParagraphsWithFormattingFromXml xml).map
            (fun a => ElemContent.text a.text)) ∧
    (∀ xml : String, ∀ a ∈ extractParagraphsWithFormattingFromXml xml,
      normalizeText a.text = a.text) ∧
    (∀ xml : String, ∀ t ∈ extractTablesFromXml xml, ∀ row ∈ t, ∀ cell ∈ row,
      normalizeText cell = cell) ∧
    (∀ (xml : String) (opts : ResolvedOptions) (c ord : Nat),
      (buildTablesLoop opts (extractTablesFromXml xml) c ord).1.map (fun e => e.content)
        = (extractTablesFromXml xml).map (fun t => ElemContent.table (t.map (fun r =>
            ⟨r.map (fun cell => TableCell.mk cell), false⟩)))) := by
  refine ⟨?_, extractParas_text_fixed, extractTables_cells_fixed, ?_⟩
  · intro xml opts c ord
    rw [buildContentLoop_contents]
    apply List.map_congr_left
    intro a ha
    congr 1
    split
    · exact extractParas_text_fixed xml a ha
    · rfl
  · intro xml opts c ord
    rw [buildTablesLoop_contents]
    apply List.map_congr_left
    intro t ht
    congr 1
    apply List.map_congr_left
    intro r hr
    congr 1
    apply List.map_congr_left
    intro cell hcell
    congr 1
    split
    · exact extractTables_cells_fixed xml t ht r hr cell hcell
    · rfl

theorem C6_amended_witness : normalizeText "a b" = "a b" :=
  C6_amended.2.1 (bytesToString (strBytes "<w:p><w:r><w:t>a  b</w:t></w:r></w:p>"))
    { text := "a b", isHeader := false, level := none, formatting := none } (by decide)

theorem buildContentLoop_get (opts : ResolvedOptions) :
    ∀ (l : List AnalyzedPara) (c ord i : Nat) (h : i < l.length)
      (h2 : i < (buildContentLoop opts l c ord).1.length),
      (buildContentLoop opts l c ord).1.get ⟨i, h2⟩
        = contentElemOf opts (l.get ⟨i, h⟩) (c + i) (ord + i) := by
  intro l
  induction l with
  | nil => intro c ord i h _; simp at h
  | cons a rest ih =>
    intro c ord i h h2
    cases i with
    | zero => rfl
    | succ i =>
      have hlt : i < rest.length := by
        simp only [List.length_cons] at h
        omega
      have hlt2 : i < (buildContentLoop opts rest (c + 1) (ord + 1)).1.length := by
        rw [buildContentLoop_length]
        exact hlt
      have := ih (c + 1) (ord + 1) i hlt hlt2
      show (buildContentLoop opts rest (c + 1) (ord + 1)).1.get ⟨i, hlt2⟩ = _
      rw [this]
      congr 1 <;> omega

/-- The Scenario C container: a struck paragraph `foo` and a plain
paragraph `bar`. -/
def zC7 : ZipFile :=
  ⟨false, [⟨"word/document.xml", false, strBytes
    ("<w:p><w:pPr><w:rPr><w:strike w:val=\"1\"/></w:rPr></w:pPr>"
      ++ "<w:r><w:t>foo</w:t></w:r></w:p><w:p><w:r><w:t>bar</w:t></w:r></w:p>")⟩]⟩

/-- The analyzed paragraph used by the C7 witness. -/
def parasC7 : List AnalyzedPara := [⟨"foo", false, none, some { strike := true }⟩]

set_option maxRecDepth 10000 in
/-- C7: a non-header paragraph block with the strike indicator produces
exactly one Paragraph element whose checkbox is `{checked: true}`; a block
without the indicator gets no checkbox field.  The general part gives the
one-to-one correspondence between analyzed blocks and emitted elements; the
concrete part runs Scenario C end to end. -/
theorem C7_strike_checkbox :
    (∀ (opts : ResolvedOptions) (l : List AnalyzedPara) (c ord i : Nat)
      (h : i < l.length) (h2 : i < (buildContentLoop opts l c ord).1.length),
      ((l.get ⟨i, h⟩).isHeader = false →
        ((buildContentLoop opts l c ord).1.get ⟨i, h2⟩).type = ElemType.paragraph ∧
        ((buildContentLoop opts l c ord).1.get ⟨i, h2⟩).checkbox
          = (if ((l.get ⟨i, h⟩).formatting.getD {}).strike then some true else none) ∧
        ((buildContentLoop opts l c ord).1.get ⟨i, h2⟩).content
          = .text (if opts.normalizeWhitespace then normalizeText (l.get ⟨i, h⟩).text
              else (l.get ⟨i, h⟩).text)) ∧
      ((l.get ⟨i, h⟩).isHeader = true →
        ((buildContentLoop opts l c ord).1.get ⟨i, h2⟩).checkbox = none)) ∧
    ((parse zC7 {}).elems.countP
        (fun e => decide (e.type = ElemType.paragraph) && decide (e.checkbox = some true)) = 1 ∧
      (∃ e ∈ (parse zC7 {}).elems,
        e.type = ElemType.paragraph ∧ e.content = .text "foo" ∧ e.checkbox = some true) ∧
      (∃ e ∈ (parse zC7 {}).elems,
        e.type = ElemType.paragraph ∧ e.content = .text "bar" ∧ e.checkbox = none)) := by
  constructor
  · intro opts l c ord i h h2
    rw [buildContentLoop_get opts l c ord i h h2]
    constructor
    · intro hph
      simp only [List.get_eq_getElem] at hph
      refine ⟨?_, ?_, ?_⟩ <;> simp [contentElemOf, hph]
    · intro hph
      simp only [List.get_eq_getElem] at hph
      simp [contentElemOf, hph]
  · refine ⟨by decide, by decide, by decide⟩

set_option maxRecDepth 10000 in
theorem C7_len : 0 < (buildContentLoop (resolveOptions {}) parasC7 0 1).1.length := by decide

theorem C7_witness :
    ((buildContentLoop (resolveOptions {}) parasC7 0 1).1.get ⟨0, C7_len⟩).type
        = ElemType.paragraph ∧
    ((buildContentLoop (resolveOptions {}) parasC7 0 1).1.get ⟨0, C7_len⟩).checkbox
        = some true := by
  have h := (C7_strike_checkbox.1 (resolveOptions {}) parasC7 0 1 0 (by decide) C7_len).1
    (by decide)
  refine ⟨h.1, ?_⟩
  rw [h.2.1]
  decide

/-- The skip predicate of the images loop: kept exactly when not oversized
and of a recognized format. -/
def keepImage (opts : ResolvedOptions) (nd : String × List Nat) : Bool :=
  !(nd.2.length > opts.maxImageSize) && (getImageFormat nd.1).isSome

theorem buildImagesLoop_count (opts : ResolvedOptions) :
    ∀ (l : List (String × List Nat)) (c ord : Nat),
      (buildImagesLoop opts l c ord).1.length = (l.filter (keepImage opts)).length := by
  intro l
  induction l with
  | nil => intro c ord; rfl
  | cons nd rest ih =>
    intro c ord
    obtain ⟨n, d⟩ := nd
    rw [List.filter_cons]
    by_cases hsz : d.length > opts.maxImageSize
    · simp only [buildImagesLoop, hsz, if_true]
      rw [ih c ord]
      have hk : keepImage opts (n, d) = false := by
        simp [keepImage]
        omega
      simp [hk]
    · cases hfmt : getImageFormat n with
      | none =>
        simp only [buildImagesLoop, hsz, if_false]
        rw [hfmt]
        rw [ih c ord]
        have hk : keepImage opts (n, d) = false := by
          simp [keepImage, hfmt]
        simp [hk]
      | some fmt =>
        simp only [buildImagesLoop, hsz, if_false]
        rw [hfmt]
        have hk : keepImage opts (n, d) = true := by
          simp [keepImage, hfmt]
          omega
        simp only [hk, if_true, List.length_cons]
        rw [ih (c + 1) (ord + 1)]

theorem buildImagesLoop_cons_keep (opts : ResolvedOptions) (n : String) (d : List Nat)
    (rest : List (String × List Nat)) (c ord : Nat)
    (hsz : ¬(d.length > opts.maxImageSize)) {fmt : String}
    (hfmt : getImageFormat n = some fmt) :
    (buildImagesLoop opts ((n, d) :: rest) c ord).1
      = { type := .image, id := mkId c, position := ⟨1, 1, ord⟩, content := .image d,
          imageMeta := some ⟨filenameOnly n, fmt, 0, 0⟩, inlinePositioning := some true }
        :: (buildImagesLoop opts rest (c + 1) (ord + 1)).1 := by
  simp only [buildImagesLoop, hfmt]
  rw [if_neg hsz]

theorem buildImagesLoop_mem (opts : ResolvedOptions) :
    ∀ (l : List (String × List Nat)) (c ord : Nat) (n : String) (d : List Nat),
      (n, d) ∈ l → keepImage opts (n, d) = true →
      ∃ e ∈ (buildImagesLoop opts l c ord).1,
        e.type = ElemType.image ∧ e.content = .image d ∧
        e.imageMeta.map ImageMeta.filename = some (filenameOnly n) := by
  intro l
  induction l with
  | nil => intro c ord n d hmem; simp at hmem
  | cons nd rest ih =>
    intro c ord n d hmem hk
    obtain ⟨m, b⟩ := nd
    rcases List.mem_cons.mp hmem with heq | htail
    · cases heq
      have hsz : ¬(d.length > opts.maxImageSize) := by
        intro hgt
        simp [keepImage, hgt] at hk
      obtain ⟨fmt, hfmt⟩ : ∃ fmt, getImageFormat n = some fmt := by
        cases hf : getImageFormat n with
        | none => simp [keepImage, hf] at hk
        | some fmt => exact ⟨fmt, rfl⟩
      rw [buildImagesLoop_cons_keep opts n d rest c ord hsz hfmt]
      exact ⟨_, List.mem_cons_self _ _, rfl, rfl, rfl⟩
    · by_cases hsz : b.length > opts.maxImageSize
      · simp only [buildImagesLoop, hsz, if_true]
        exact ih c ord n d htail hk
      · cases hfmt : getImageFormat m with
        | none =>
          simp only [buildImagesLoop, hsz, if_false, hfmt]
          exact ih c ord n d htail hk
        | some fmt =>
          simp only [buildImagesLoop, hsz, if_false, hfmt]
          obtain ⟨e, he, hprops⟩ := ih (c + 1) (ord + 1) n d htail hk
          exact ⟨e, List.mem_cons_of_mem _ he, hprops⟩

/-- C9: the image-size guard is an inclusive ceiling — an image whose byte
length equals `maxImageSize` is kept and emitted as an Image element, one
byte over is skipped; skipping is silent (the run's error status does not
depend on media entries). -/
theorem C9_size_boundary :
    (∀ (opts : ResolvedOptions) (l : List (String × List Nat)) (c ord : Nat),
      (buildImagesLoop opts l c ord).1.length = (l.filter (keepImage opts)).length) ∧
    (∀ (opts : ResolvedOptions) (n : String) (d : List Nat),
      (getImageFormat n).isSome = true →
        (d.length = opts.maxImageSize → keepImage opts (n, d) = true) ∧
        (d.length = opts.maxImageSize + 1 → keepImage opts (n, d) = false)) ∧
    (∀ (opts : ResolvedOptions) (l : List (String × List Nat)) (c ord : Nat)
        (n : String) (d : List Nat), (n, d) ∈ l → keepImage opts (n, d) = true →
      ∃ e ∈ (buildImagesLoop opts l c ord).1,
        e.type = ElemType.image ∧ e.content = .image d) ∧
    (∀ (z : ZipFile) (o : ParseOptions), z.corrupt = false →
      (zipExtractFile z "word/document.xml").isSome = true → (parse z o).error = none) := by
  refine ⟨buildImagesLoop_count, ?_, ?_,
    fun z o hz hdoc => parse_error_none_of_doc z o hz hdoc⟩
  · intro opts n d hfmt
    constructor
    · intro hlen
      simp [keepImage, hfmt]
      omega
    · intro hlen
      simp [keepImage, hfmt]
      omega
  · intro opts l c ord n d hmem hk
    obtain ⟨e, he, h1, h2, _⟩ := buildImagesLoop_mem opts l c ord n d hmem hk
    exact ⟨e, he, h1, h2⟩

/-- Resolved options with a 5-byte image ceiling. -/
def optsMax5 : ResolvedOptions := { resolveOptions {} with maxImageSize := 5 }

theorem C9_witness :
    keepImage optsMax5 ("word/media/a.png", [0, 0, 0, 0, 0]) = true ∧
    keepImage optsMax5 ("word/media/a.png", [0, 0, 0, 0, 0, 0]) = false ∧
    ∃ e ∈ (buildImagesLoop optsMax5 [("word/media/a.png", [0, 0, 0, 0, 0])] 0 1000).1,
      e.type = ElemType.image ∧ e.content = .image [0, 0, 0, 0, 0] := by
  have h2 := C9_size_boundary.2.1 optsMax5 "word/media/a.png"
  refine ⟨(h2 [0, 0, 0, 0, 0] (by decide)).1 (by decide),
    (h2 [0, 0, 0, 0, 0, 0] (by decide)).2 (by decide), ?_⟩
  exact C9_size_boundary.2.2.1 optsMax5 [("word/media/a.png", [0, 0, 0, 0, 0])] 0 1000
    "word/media/a.png" [0, 0, 0, 0, 0] (by decide)
    ((h2 [0, 0, 0, 0, 0] (by decide)).1 (by decide))

/-- C10: a media part whose (lowercased, last-dot) extension is not one of
png/jpg/jpeg/gif/svg/wmf/emf is silently dropped: it fails the keep
predicate, contributes no element to the stage count, and never surfaces as
an error. -/
theorem C10_unrecognized_dropped :
    (∀ n : String, getImageFormat n = none ↔
      ¬ lastComponent '.' (toLowerL n.data)
          ∈ ["png".data, "jpg".data, "jpeg".data, "gif".data, "svg".data, "wmf".data,
             "emf".data]) ∧
    (∀ (opts : ResolvedOptions) (n : String) (d : List Nat),
      getImageFormat n = none → keepImage opts (n, d) = false) ∧
    (∀ (opts : ResolvedOptions) (l : List (String × List Nat)) (c ord : Nat),
      (buildImagesLoop opts l c ord).1.length = (l.filter (keepImage opts)).length) ∧
    (∀ (z : ZipFile) (o : ParseOptions), z.corrupt = false →
      (zipExtractFile z "word/document.xml").isSome = true → (parse z o).error = none) := by
  refine ⟨?_, ?_, buildImagesLoop_count,
    fun z o hz hdoc => parse_error_none_of_doc z o hz hdoc⟩
  · intro n
    simp only [getImageFormat]
    split_ifs with h1 h2 h3 h4 h5 h6 h7 <;> simp_all
  · intro opts n d h
    simp [keepImage, h]

theorem C10_witness :
    keepImage (resolveOptions {}) ("word/media/a.txt", [0]) = false ∧
    (buildImagesLoop (resolveOptions {}) [("word/media/a.txt", [0])] 0 1000).1.length = 0 := by
  have hn : getImageFormat "word/media/a.txt" = none :=
    (C10_unrecognized_dropped.1 "word/media/a.txt").mpr (by decide)
  refine ⟨C10_unrecognized_dropped.2.1 (resolveOptions {}) "word/media/a.txt" [0] hn, ?_⟩
  rw [C10_unrecognized_dropped.2.2.1]
  decide

end Docx
